import Mathlib

/-!
# Verification of the claude-session-viewer ingestion pipeline

A shallow embedding of the core ingestion/analysis services of the
claude-session-viewer repository:

* `build_chunks` — the turn-builder state machine
  (`services/chunk_builder.py`);
* `analyze_context` — the per-phase context-token attribution fold
  (`services/context_analyzer.py`);
* `resolve_subagents` — the three-phase sub-agent linking algorithm
  (`services/subagent_resolver.py`);
* `is_stale` — the metadata-cache staleness rule
  (`services/metadata_cache.py`);
* `encode_path` / `decode_path` — the project path codec
  (`utils/path_codec.py`);
* `check_file` — the notification matcher's incremental file check
  (`services/notification_manager.py`).

Modelling conventions: timestamps are integer milliseconds (`Int`), file
mtimes are rationals (seconds), Python `dict`s are insertion-ordered
association lists, Python strings are Lean `String`s.  Randomly generated
identifiers (`uuid4`-based injection ids) are modelled as constant
placeholders because no consumer reads them.
-/

/-- Python `d.get(k, dflt)` over an insertion-ordered association list. -/
def dictGet {α : Type} (m : List (String × α)) (k : String) (dflt : α) : α :=
  match m.find? (fun kv => kv.1 == k) with
  | some kv => kv.2
  | none => dflt

/-- Python `d[k] = v`: replace the value at the key's original position,
or append a fresh binding (insertion order preserved). -/
def dictInsert {α : Type} (m : List (String × α)) (k : String) (v : α) :
    List (String × α) :=
  match m with
  | [] => [(k, v)]
  | (k', v') :: rest =>
      if k' = k then (k, v) :: rest else (k', v') :: dictInsert rest k v

/-- Membership test for a key of an association list (Python `k in d`). -/
def dictHas {α : Type} (m : List (String × α)) (k : String) : Bool :=
  (m.find? (fun kv => kv.1 == k)).isSome

/-- Lookup returning an option (Python `d.get(k)`). -/
def dictFind? {α : Type} (m : List (String × α)) (k : String) : Option α :=
  (m.find? (fun kv => kv.1 == k)).map (·.2)

/-- Sum of the values of a `String → Nat` association list. -/
def dictValuesSum (m : List (String × Nat)) : Nat :=
  (m.map (·.2)).sum

/-- `tokens_by_cat[cat] = tokens_by_cat.get(cat, 0) + n`. -/
def dictIncr (m : List (String × Nat)) (k : String) (n : Nat) :
    List (String × Nat) :=
  dictInsert m k (dictGet m k 0 + n)

/-- Substring test on character lists (Python `pat in s`). -/
def subB (pat : List Char) : List Char → Bool
  | [] => pat.isEmpty
  | c :: rest => pat.isPrefixOf (c :: rest) || subB pat rest

/-- Python `pat in s` for strings. -/
def strContains (s pat : String) : Bool :=
  subB pat.toList s.toList

/-! ## Data model (`types/messages.py`, `types/chunks.py`, `types/context.py`) -/

/-- `MessageType` enum from `types/messages.py`. -/
inductive MessageType
  | user
  | assistant
  | system
  | summary
  | fileHistory
  | queueOp
deriving DecidableEq, Repr

/-- `TokenUsage` from `types/messages.py`. -/
structure TokenUsage where
  input_tokens : Nat := 0
  output_tokens : Nat := 0
  cache_read_input_tokens : Nat := 0
  cache_creation_input_tokens : Nat := 0
deriving DecidableEq, Repr

/-- `TokenUsage.total` property. -/
def TokenUsage.total (u : TokenUsage) : Nat :=
  u.input_tokens + u.output_tokens +
    u.cache_read_input_tokens + u.cache_creation_input_tokens

/-- `ToolCall` from `types/messages.py`; the `input` dict is modelled as a
string-valued association list. -/
structure ToolCall where
  id : String
  name : String
  input : List (String × String) := []
  is_task : Bool := false
  task_description : String := ""
deriving DecidableEq, Repr

/-- Item of a tool result's list-shaped content: a dict (we keep the
`"text"` entry the code reads) or a bare string. -/
inductive TRItem
  | dict (text : String)
  | str (s : String)
deriving DecidableEq, Repr

/-- A tool result's `content` field: string, list of items, or any other
Python value (read as empty by every consumer). -/
inductive TRContent
  | str (s : String)
  | items (xs : List TRItem)
  | other
deriving DecidableEq, Repr

/-- `ToolResult` from `types/messages.py`. -/
structure ToolResult where
  tool_use_id : String
  content : TRContent := .str ""
  is_error : Bool := false
deriving DecidableEq, Repr

/-- A content block that is a Python dict.  The structure holds every key
the embedded code reads, each with the default the code supplies. -/
structure BlockDict where
  type : String := ""
  text : String := ""
  thinking : String := ""
  input : List (String × String) := []
  content : TRContent := .str ""
  stop_reason : String := ""
deriving DecidableEq, Repr

/-- An element of list-shaped message content: a dict block or a string. -/
inductive BlockItem
  | dict (d : BlockDict)
  | str (s : String)
deriving DecidableEq, Repr

/-- Message `content`: a string or an ordered list of blocks. -/
inductive Content
  | str (s : String)
  | blocks (bs : List BlockItem)
deriving DecidableEq, Repr

/-- `ParsedMessage` from `types/messages.py` (fields the embedded services
read; timestamps in integer milliseconds). -/
structure ParsedMessage where
  uuid : String
  type : MessageType
  timestamp : Int := 0
  role : String := ""
  content : Content := .str ""
  usage : Option TokenUsage := none
  model : String := ""
  agent_id : String := ""
  is_meta : Bool := false
  is_compact_summary : Bool := false
  tool_calls : List ToolCall := []
  tool_results : List ToolResult := []
deriving DecidableEq, Repr

/-- `ToolExecution` from `types/messages.py`. -/
structure ToolExecution where
  call : ToolCall
  result : Option ToolResult := none
  start_time : Option Int := none
  end_time : Option Int := none
  duration_ms : Int := 0
deriving DecidableEq, Repr

/-- `SessionMetrics` from `types/sessions.py` (fields used by the chunk
builder; `cost_usd` is exact rational arithmetic). -/
structure SessionMetrics where
  message_count : Nat := 0
  input_tokens : Nat := 0
  output_tokens : Nat := 0
  cache_read_tokens : Nat := 0
  cache_creation_tokens : Nat := 0
  total_tokens : Nat := 0
  tool_call_count : Nat := 0
  cost_usd : ℚ := 0
  duration_ms : Int := 0
deriving DecidableEq, Repr

/-- `ChunkType` enum from `types/chunks.py`. -/
inductive ChunkType
  | user
  | ai
  | system
  | compact
deriving DecidableEq, Repr

/-- `AIGroupStatus` enum from `types/chunks.py`. -/
inductive AIGroupStatus
  | complete
  | interrupted
  | error
  | inProgress
deriving DecidableEq, Repr

/-- `Process` from `types/processes.py` (fields the resolver reads). -/
structure Process where
  id : String
  start_time : Int := 0
  description : String := ""
  parent_task_id : String := ""
  is_parallel : Bool := false
deriving DecidableEq, Repr

/-- `ContextCategory` enum from `types/context.py`. -/
inductive ContextCategory
  | claudeMd
  | mentionedFile
  | toolOutput
  | thinkingText
  | taskCoordination
  | userMessage
deriving DecidableEq, Repr

/-- The `.value` string of a `ContextCategory` member. -/
def ContextCategory.value : ContextCategory → String
  | .claudeMd => "claude-md"
  | .mentionedFile => "mentioned-file"
  | .toolOutput => "tool-output"
  | .thinkingText => "thinking-text"
  | .taskCoordination => "task-coordination"
  | .userMessage => "user-message"

/-- `ContextInjection` from `types/context.py`; the breakdown dicts are
label/token pairs. -/
structure ContextInjection where
  id : String := "ctx"
  category : ContextCategory
  estimated_tokens : Nat := 0
  path : String := ""
  display_name : String := ""
  turn_index : Nat := 0
  tool_breakdown : List (String × Nat) := []
deriving DecidableEq, Repr

/-- `ContextStats` from `types/context.py`. -/
structure ContextStats where
  new_injections : List ContextInjection := []
  accumulated_injections : List ContextInjection := []
  total_estimated_tokens : Nat := 0
  tokens_by_category : List (String × Nat) := []
  phase_number : Nat := 1
deriving DecidableEq, Repr

/-- `Chunk` from `types/chunks.py` (all fields the embedded services read
or write). -/
structure Chunk where
  id : String
  chunk_type : ChunkType
  start_time : Int := 0
  end_time : Int := 0
  metrics : SessionMetrics := {}
  messages : List ParsedMessage := []
  status : AIGroupStatus := .complete
  tool_executions : List ToolExecution := []
  processes : List Process := []
  user_text : String := ""
  command_output : String := ""
  tokens_freed : Int := 0
deriving DecidableEq, Repr

/-! ## Token estimation (`utils/token_estimator.py`) -/

/-- `estimate_tokens`: `max(1, len(text) // 4)` for non-empty text, else 0. -/
def estimate_tokens (text : String) : Nat :=
  if text = "" then 0 else max 1 (text.length / 4)

/-- Python `str()` of a string-valued dict, e.g. `{'k': 'v'}`. -/
def pyDictRepr (d : List (String × String)) : String :=
  "\x7b" ++ String.intercalate ", "
    (d.map (fun kv => "'" ++ kv.1 ++ "': '" ++ kv.2 ++ "'")) ++ "\x7d"

/-- Token estimate of a tool result's content (shared shape used by
`token_estimator.estimate_tokens_for_content` and
`context_analyzer._estimate_tool_result_tokens`). -/
def estimateTRContent (c : TRContent) : Nat :=
  match c with
  | .str s => estimate_tokens s
  | .items xs =>
      (xs.map (fun x => match x with
        | .dict t => estimate_tokens t
        | .str s => estimate_tokens s)).sum
  | .other => 0

/-- `estimate_tokens_for_content`: string content or a sum over typed
blocks (`text`, `thinking`, `tool_use`, `tool_result`, bare strings). -/
def estimate_tokens_for_content (content : Content) : Nat :=
  match content with
  | .str s => estimate_tokens s
  | .blocks bs =>
      (bs.map (fun b => match b with
        | .dict d =>
            if d.type = "text" then estimate_tokens d.text
            else if d.type = "thinking" then estimate_tokens d.thinking
            else if d.type = "tool_use" then estimate_tokens (pyDictRepr d.input)
            else if d.type = "tool_result" then estimateTRContent d.content
            else 0
        | .str s => estimate_tokens s)).sum

/-- One row of `MODEL_COSTS` (USD per million tokens, exact rationals). -/
structure CostEntry where
  input : ℚ
  output : ℚ
  cache_read : ℚ
  cache_create : ℚ
deriving DecidableEq, Repr

/-- The `MODEL_COSTS` table from `utils/token_estimator.py`. -/
def MODEL_COSTS : List (String × CostEntry) :=
  [("claude-opus-4-6", ⟨15, 75, 3/2, 75/4⟩),
   ("claude-sonnet-4-5", ⟨3, 15, 3/10, 15/4⟩),
   ("claude-haiku-4-5", ⟨4/5, 4, 2/25, 1⟩)]

/-- Python `s.rsplit("-", 1)[0]`. -/
def dropLastDashSegment (s : String) : String :=
  match s.toList.reverse.dropWhile (· ≠ '-') with
  | [] => s
  | _ :: rest => String.mk rest.reverse

/-- `_match_model`: match by full prefix, then by family prefix. -/
def matchModel (model : String) : Option CostEntry :=
  if model = "" then none
  else
    match MODEL_COSTS.find? (fun pc => pc.1.isPrefixOf model) with
    | some pc => some pc.2
    | none =>
        (MODEL_COSTS.find?
          (fun pc => (dropLastDashSegment pc.1).isPrefixOf model)).map (·.2)

/-- `calculate_cost` from `utils/token_estimator.py`. -/
def calculate_cost (input output cacheRead cacheCreate : Nat)
    (model : String) : ℚ :=
  match matchModel model with
  | none => 0
  | some c =>
      ((input : ℚ) * c.input + (output : ℚ) * c.output +
       (cacheRead : ℚ) * c.cache_read +
       (cacheCreate : ℚ) * c.cache_create) / 1000000

/-! ## Content sanitizer (`utils/content_sanitizer.py`) -/

/-- Split a character list at the first occurrence of `pat`, returning the
part before it and the part after it. -/
def splitFirst (pat : List Char) : List Char → Option (List Char × List Char)
  | [] => if pat.isEmpty then some ([], []) else none
  | c :: rest =>
      if pat.isPrefixOf (c :: rest) then some ([], (c :: rest).drop pat.length)
      else
        match splitFirst pat rest with
        | some (pre, post) => some (c :: pre, post)
        | none => none

/-- `re.sub(r'<tag>.*?</tag>', '', s, DOTALL)` for a literal open tag:
remove each earliest-closing span, scanning left to right.  The fuel is an
upper bound on the number of removed spans. -/
def removeSpans (opn cls : List Char) : Nat → List Char → List Char
  | 0, s => s
  | fuel + 1, s =>
      match splitFirst opn s with
      | none => s
      | some (pre, rest) =>
          match splitFirst cls rest with
          | none => s
          | some (_, post) => pre ++ removeSpans opn cls fuel post

/-- Word character for Python's `\b` and `\w` (ASCII reading). -/
def isWordChar (c : Char) : Bool :=
  c.isAlphanum || c = '_'

/-- Match `<teammate-message\b[^>]*>` at the head of `s`; returns the
remainder after the closing `>`. -/
def matchTeammateOpenAt (s : List Char) : Option (List Char) :=
  let lit := "<teammate-message".toList
  if lit.isPrefixOf s then
    let rest := s.drop lit.length
    match rest with
    | [] => none
    | c :: _ =>
        if isWordChar c then none
        else
          match splitFirst ['>'] rest with
          | some (_, post) => some post
          | none => none
  else none

/-- Find the first position where `<teammate-message\b[^>]*>` matches. -/
def splitFirstTeammateOpen : List Char → Option (List Char × List Char)
  | [] => none
  | c :: rest =>
      match matchTeammateOpenAt (c :: rest) with
      | some post => some ([], post)
      | none =>
          match splitFirstTeammateOpen rest with
          | some (pre, post) => some (c :: pre, post)
          | none => none

/-- `re.sub` for the `_TEAMMATE_MESSAGE_RE` pattern. -/
def removeTeammateSpans (cls : List Char) : Nat → List Char → List Char
  | 0, s => s
  | fuel + 1, s =>
      match splitFirstTeammateOpen s with
      | none => s
      | some (pre, rest) =>
          match splitFirst cls rest with
          | none => s
          | some (_, post) => pre ++ removeTeammateSpans cls fuel post

/-- `re.sub(r'\n{3,}', '\n\n', s)`: collapse runs of three or more
newlines to two. -/
def collapseNewlines : Nat → List Char → List Char
  | 0, s => s
  | _ + 1, [] => []
  | fuel + 1, c :: rest =>
      if c = '\n' then
        let run := 1 + (rest.takeWhile (· = '\n')).length
        let tail := rest.dropWhile (· = '\n')
        if run ≥ 3 then '\n' :: '\n' :: collapseNewlines fuel tail
        else List.replicate run '\n' ++ collapseNewlines fuel tail
      else c :: collapseNewlines fuel rest

/-- Python `str.strip()` (ASCII whitespace). -/
def stripChars (s : List Char) : List Char :=
  ((s.dropWhile Char.isWhitespace).reverse.dropWhile Char.isWhitespace).reverse

/-- The literal open/close tag pairs of `_ALL_PATTERNS` other than the
teammate-message pattern, in their source order. -/
def literalTagPairs : List (String × String) :=
  [("<system-reminder>", "</system-reminder>"),
   ("<local-command-caveat>", "</local-command-caveat>"),
   ("<command-name>", "</command-name>"),
   ("<command-message>", "</command-message>"),
   ("<command-args>", "</command-args>"),
   ("<local-command-stdout>", "</local-command-stdout>")]

/-- `sanitize_content`: strip the seven internal markup tag patterns, then
collapse blank-line runs and trim. -/
def sanitize_content (text : String) : String :=
  if text = "" then ""
  else
    let cs := text.toList
    let fuel := cs.length + 1
    let cs := removeSpans "<system-reminder>".toList "</system-reminder>".toList fuel cs
    let cs := removeTeammateSpans "</teammate-message>".toList fuel cs
    let cs := (literalTagPairs.drop 1).foldl
      (fun acc p => removeSpans p.1.toList p.2.toList fuel acc) cs
    let cs := collapseNewlines fuel cs
    String.mk (stripChars cs)

/-- `extract_user_text`: string content is sanitized directly; block lists
join their `text` blocks and bare strings with newlines first. -/
def extract_user_text (content : Content) : String :=
  match content with
  | .str s => sanitize_content s
  | .blocks bs =>
      let texts := bs.filterMap (fun b => match b with
        | .dict d => if d.type = "text" then some d.text else none
        | .str s => some s)
      sanitize_content (String.intercalate "\n" texts)

/-! ## Turn builder (`services/chunk_builder.py`) -/

/-- `HARD_NOISE_TYPES` from `utils/message_classifier.py`. -/
def isHardNoise (t : MessageType) : Bool :=
  match t with
  | .summary => true
  | .fileHistory => true
  | .queueOp => true
  | _ => false

/-- In-place update of the value at a key (Python mutation of the object
stored in a dict). -/
def dictModify {α : Type} (m : List (String × α)) (k : String) (f : α → α) :
    List (String × α) :=
  match m with
  | [] => []
  | (k', v) :: rest =>
      if k' = k then (k', f v) :: rest else (k', v) :: dictModify rest k f

/-- Accumulator of `_create_ai_chunk`'s per-message loop. -/
structure AIAccum where
  metrics : SessionMetrics := {}
  model : String := ""
  toolMap : List (String × ToolExecution) := []
deriving DecidableEq, Repr

/-- One iteration of `_create_ai_chunk`'s loop over buffered messages:
metric sums, first non-empty model, tool-call registration and
tool-result matching. -/
def aiStepMsg (acc : AIAccum) (msg : ParsedMessage) : AIAccum :=
  let m := acc.metrics
  let m := { m with message_count := m.message_count + 1 }
  let m :=
    match msg.usage with
    | some u =>
        { m with
          input_tokens := m.input_tokens + u.input_tokens
          output_tokens := m.output_tokens + u.output_tokens
          cache_read_tokens := m.cache_read_tokens + u.cache_read_input_tokens
          cache_creation_tokens :=
            m.cache_creation_tokens + u.cache_creation_input_tokens
          total_tokens := m.total_tokens + u.total }
    | none => m
  let model := if msg.model ≠ "" ∧ acc.model = "" then msg.model else acc.model
  let step := msg.tool_calls.foldl
    (fun (p : SessionMetrics × List (String × ToolExecution)) tc =>
      ({ p.1 with tool_call_count := p.1.tool_call_count + 1 },
       dictInsert p.2 tc.id
         { call := tc, start_time := some msg.timestamp }))
    (m, acc.toolMap)
  let tmap := msg.tool_results.foldl
    (fun tmap tr =>
      if dictHas tmap tr.tool_use_id then
        dictModify tmap tr.tool_use_id (fun ex =>
          let ex := { ex with result := some tr, end_time := some msg.timestamp }
          match ex.start_time, ex.end_time with
          | some s, some e => { ex with duration_ms := e - s }
          | _, _ => ex)
      else tmap)
    step.2
  { metrics := step.1, model := model, toolMap := tmap }

/-- Block scan of `_determine_status`: does any dict block of this content
carry `stop_reason = "max_tokens"`? -/
def contentHasMaxTokens (c : Content) : Bool :=
  match c with
  | .blocks bs =>
      bs.any (fun b =>
        match b with
        | .dict d => d.stop_reason == "max_tokens"
        | .str _ => false)
  | .str _ => false

/-- `_ChunkBuilder._determine_status`: `error` if any buffered result has
`is_error`; else `interrupted` if the **last** buffered message has a
`stop_reason = max_tokens` block; else `complete`. -/
def determine_status (messages : List ParsedMessage) : AIGroupStatus :=
  if messages.isEmpty then .complete
  else if messages.any (fun m => m.tool_results.any (·.is_error)) then .error
  else
    match messages.getLast? with
    | some last => if contentHasMaxTokens last.content then .interrupted else .complete
    | none => .complete

/-- Deterministic chunk id `"chunk-<n>"` produced by `_next_id` when the
stored counter is `n` (the counter increments before formatting). -/
def nextChunkId (counter : Nat) : String :=
  "chunk-" ++ toString (counter + 1)

/-- `_create_ai_chunk`: metrics roll-up, tool linking, duration and
status for a flushed buffer. -/
def mkAIChunk (counter : Nat) (messages : List ParsedMessage) : Chunk :=
  let acc := messages.foldl aiStepMsg {}
  let metrics :=
    if acc.model ≠ "" then
      { acc.metrics with
        cost_usd := calculate_cost acc.metrics.input_tokens
          acc.metrics.output_tokens acc.metrics.cache_read_tokens
          acc.metrics.cache_creation_tokens acc.model }
    else acc.metrics
  let start := (messages.head?.map (·.timestamp)).getD 0
  let stop := (messages.getLast?.map (·.timestamp)).getD 0
  let metrics := { metrics with duration_ms := stop - start }
  { id := nextChunkId counter
    chunk_type := .ai
    start_time := start
    end_time := stop
    metrics := metrics
    messages := messages
    status := determine_status messages
    tool_executions := acc.toolMap.map (·.2) }

/-- `_create_user_chunk`. -/
def mkUserChunk (counter : Nat) (msg : ParsedMessage) : Chunk :=
  { id := nextChunkId counter
    chunk_type := .user
    start_time := msg.timestamp
    end_time := msg.timestamp
    metrics := { message_count := 1 }
    messages := [msg]
    user_text := extract_user_text msg.content }

/-- `_create_system_chunk`. -/
def mkSystemChunk (counter : Nat) (msg : ParsedMessage) : Chunk :=
  let out :=
    match msg.content with
    | .str s => s
    | .blocks bs =>
        String.intercalate "\n"
          (bs.filterMap (fun b =>
            match b with
            | .dict d => if d.type = "text" then some d.text else none
            | .str _ => none))
  { id := nextChunkId counter
    chunk_type := .system
    start_time := msg.timestamp
    end_time := msg.timestamp
    metrics := { message_count := 1 }
    messages := [msg]
    command_output := out }

/-- `_create_compact_chunk`. -/
def mkCompactChunk (counter : Nat) (msg : ParsedMessage) : Chunk :=
  { id := nextChunkId counter
    chunk_type := .compact
    start_time := msg.timestamp
    end_time := msg.timestamp
    metrics := { message_count := 1 }
    messages := [msg] }

/-- `_ChunkBuilder` state: emitted chunks, pending AI buffer, id counter. -/
structure BuilderState where
  chunks : List Chunk := []
  aiBuffer : List ParsedMessage := []
  counter : Nat := 0
deriving DecidableEq, Repr

/-- `_flush_ai_buffer`. -/
def flushAI (st : BuilderState) : BuilderState :=
  if st.aiBuffer.isEmpty then st
  else
    { chunks := st.chunks ++ [mkAIChunk st.counter st.aiBuffer]
      aiBuffer := []
      counter := st.counter + 1 }

/-- `_ChunkBuilder.process`: the turn-builder state machine transition. -/
def processMsg (st : BuilderState) (msg : ParsedMessage) : BuilderState :=
  if msg.is_compact_summary then
    let st := flushAI st
    { st with
      chunks := st.chunks ++ [mkCompactChunk st.counter msg]
      counter := st.counter + 1 }
  else if isHardNoise msg.type then st
  else if ¬msg.is_meta ∧ msg.type = .user then
    let st := flushAI st
    { st with
      chunks := st.chunks ++ [mkUserChunk st.counter msg]
      counter := st.counter + 1 }
  else if ¬msg.is_meta ∧ msg.type = .system then
    if st.aiBuffer.isEmpty then
      { st with
        chunks := st.chunks ++ [mkSystemChunk st.counter msg]
        counter := st.counter + 1 }
    else { st with aiBuffer := st.aiBuffer ++ [msg] }
  else { st with aiBuffer := st.aiBuffer ++ [msg] }

/-- `build_chunks` from `services/chunk_builder.py`: fold the state
machine over the record stream and flush the trailing buffer. -/
def build_chunks (messages : List ParsedMessage) : List Chunk :=
  (flushAI (messages.foldl processMsg {})).chunks

/-! ## Context analyzer (`services/context_analyzer.py`) -/

/-- `_CLAUDE_MD_PATTERNS`. -/
def CLAUDE_MD_PATTERNS : List String :=
  ["CLAUDE.md", ".claude/settings.json", ".claude/settings.local.json",
   ".clauderc"]

/-- `_TASK_TOOL_NAMES`. -/
def TASK_TOOL_NAMES : List String :=
  ["Task", "TaskCreate", "TaskUpdate", "TaskList", "TaskGet", "TaskOutput",
   "Skill"]

/-- `_is_claude_md_path`: non-empty and ends with a config pattern. -/
def isClaudeMdPath (filePath : String) : Bool :=
  if filePath = "" then false
  else CLAUDE_MD_PATTERNS.any (fun p => filePath.endsWith p)

/-- `_find_tool_result_tokens`: token estimate of the first tool result in
the chunk matching `tool_use_id`, else 0. -/
def findToolResultTokens (toolUseId : String) (chunk : Chunk) : Nat :=
  match chunk.messages.findSome?
    (fun msg => msg.tool_results.find? (fun tr => tr.tool_use_id == toolUseId)) with
  | some tr => estimateTRContent tr.content
  | none => 0

/-- `_find_preceding_user_chunk`: nearest `USER` chunk strictly before the
given index. -/
def findPrecedingUserChunk (chunks : List Chunk) (i : Nat) : Option Chunk :=
  ((chunks.take i).reverse).find? (fun c => c.chunk_type == ChunkType.user)

/-- The character class of the `@([\w./\\-]+)` mention regex. -/
def isMentionChar (c : Char) : Bool :=
  isWordChar c || c = '.' || c = '/' || c = '\\' || c = '-'

/-- `re.findall` for `_FILE_MENTION_RE`: left-to-right, non-overlapping
`@`-mention matches. -/
def findMentions : List Char → List String
  | [] => []
  | c :: rest =>
      if c = '@' then
        let run := rest.takeWhile isMentionChar
        if run.isEmpty then findMentions rest
        else String.mk run :: findMentions (rest.drop run.length)
      else findMentions rest
termination_by l => l.length
decreasing_by
  · simp
  · simp only [List.length_cons, List.length_drop]
    omega
  · simp

/-- `_find_read_tokens_for_path`: result tokens of the first `Read` call
whose path endswith-matches the mentioned path (in either direction). -/
def findReadTokensForPath (filepath : String) (chunk : Chunk) : Nat :=
  match chunk.messages.findSome? (fun msg =>
    msg.tool_calls.find? (fun tc =>
      tc.name == "Read" &&
        (let callPath := dictGet tc.input "file_path" ""
         callPath.endsWith filepath || filepath.endsWith callPath))) with
  | some tc => findToolResultTokens tc.id chunk
  | none => 0

/-- `_detect_claude_md`: config-file `Read`s and `system-reminder` texts. -/
def detectClaudeMd (chunk : Chunk) (turnIndex : Nat) : List ContextInjection :=
  chunk.messages.flatMap (fun msg =>
    let fromReads := msg.tool_calls.filterMap (fun tc =>
      if tc.name = "Read" then
        let filePath := dictGet tc.input "file_path" ""
        if isClaudeMdPath filePath then
          some { category := ContextCategory.claudeMd
                 estimated_tokens := findToolResultTokens tc.id chunk
                 path := filePath
                 display_name := filePath
                 turn_index := turnIndex }
        else none
      else none)
    let fromBlocks :=
      match msg.content with
      | .blocks bs =>
          bs.filterMap (fun b =>
            match b with
            | .dict d =>
                if d.type = "text" &&
                    (strContains d.text "<system-reminder>" ||
                     strContains d.text "system-reminder") then
                  some { category := ContextCategory.claudeMd
                         estimated_tokens := estimate_tokens d.text
                         display_name := "System reminder"
                         turn_index := turnIndex }
                else none
            | .str _ => none)
      | .str s =>
          if strContains s "<system-reminder>" then
            [{ category := ContextCategory.claudeMd
               estimated_tokens := estimate_tokens s
               display_name := "System reminder"
               turn_index := turnIndex }]
          else []
    fromReads ++ fromBlocks)

/-- `_detect_mentioned_files`: one injection per `@path` mention in the
preceding user chunk's text. -/
def detectMentionedFiles (chunk : Chunk) (prevUserChunk : Option Chunk)
    (turnIndex : Nat) : List ContextInjection :=
  match prevUserChunk with
  | none => []
  | some prev =>
      if prev.user_text = "" then []
      else
        (findMentions prev.user_text.toList).map (fun filepath =>
          let readTokens := findReadTokensForPath filepath chunk
          let tokens := if readTokens = 0 then estimate_tokens filepath else readTokens
          { category := ContextCategory.mentionedFile
            estimated_tokens := tokens
            path := filepath
            display_name := filepath
            turn_index := turnIndex })

/-- `_detect_tool_output`: one injection per non-task, non-config tool
call, sized input + result with a two-item breakdown. -/
def detectToolOutput (chunk : Chunk) (turnIndex : Nat) : List ContextInjection :=
  chunk.messages.flatMap (fun msg =>
    msg.tool_calls.filterMap (fun tc =>
      if TASK_TOOL_NAMES.contains tc.name then none
      else if tc.name = "Read" && isClaudeMdPath (dictGet tc.input "file_path" "") then
        none
      else
        let inputTokens := estimate_tokens (pyDictRepr tc.input)
        let resultTokens := findToolResultTokens tc.id chunk
        some { category := ContextCategory.toolOutput
               estimated_tokens := inputTokens + resultTokens
               display_name := tc.name
               turn_index := turnIndex
               tool_breakdown := [("input", inputTokens), ("output", resultTokens)] }))

/-- `_detect_thinking_text`: one injection per non-empty `thinking` block
of an assistant message. -/
def detectThinkingText (chunk : Chunk) (turnIndex : Nat) : List ContextInjection :=
  chunk.messages.flatMap (fun msg =>
    if msg.role ≠ "assistant" then []
    else
      match msg.content with
      | .str _ => []
      | .blocks bs =>
          bs.filterMap (fun b =>
            match b with
            | .dict d =>
                if d.type = "thinking" then
                  let tokens := estimate_tokens d.thinking
                  if tokens > 0 then
                    some { category := ContextCategory.thinkingText
                           estimated_tokens := tokens
                           display_name := "Extended thinking"
                           turn_index := turnIndex }
                  else none
                else none
            | .str _ => none))

/-- `_detect_task_coordination`: one injection per task/skill tool call. -/
def detectTaskCoordination (chunk : Chunk) (turnIndex : Nat) :
    List ContextInjection :=
  chunk.messages.flatMap (fun msg =>
    msg.tool_calls.filterMap (fun tc =>
      if TASK_TOOL_NAMES.contains tc.name then
        let inputTokens := estimate_tokens (pyDictRepr tc.input)
        let resultTokens := findToolResultTokens tc.id chunk
        some { category := ContextCategory.taskCoordination
               estimated_tokens := inputTokens + resultTokens
               display_name := tc.name
               turn_index := turnIndex
               tool_breakdown := [("input", inputTokens), ("output", resultTokens)] }
      else none))

/-- `_analyze_ai_chunk`: the five detectors in source order. -/
def analyzeAIChunk (chunk : Chunk) (allChunks : List Chunk) (chunkIndex : Nat) :
    List ContextInjection :=
  let prevUserChunk := findPrecedingUserChunk allChunks chunkIndex
  detectClaudeMd chunk chunkIndex ++
    detectMentionedFiles chunk prevUserChunk chunkIndex ++
    detectToolOutput chunk chunkIndex ++
    detectThinkingText chunk chunkIndex ++
    detectTaskCoordination chunk chunkIndex

/-- `_analyze_user_chunk`: one user-message injection when the user text
estimates to a positive token count. -/
def analyzeUserChunk (chunk : Chunk) (chunkIndex : Nat) : List ContextInjection :=
  if chunk.user_text = "" then []
  else
    let tokens := estimate_tokens chunk.user_text
    if tokens = 0 then []
    else
      [{ category := ContextCategory.userMessage
         estimated_tokens := tokens
         display_name := "User message"
         turn_index := chunkIndex }]

/-- `_estimate_compact_summary_tokens`. -/
def estimateCompactSummaryTokens (chunk : Chunk) : Nat :=
  (chunk.messages.map (fun msg => estimate_tokens_for_content msg.content)).sum

/-- Sum of the estimated tokens of a list of injections. -/
def injTokensSum (injs : List ContextInjection) : Nat :=
  (injs.map (·.estimated_tokens)).sum

/-- The analyzer's loop state: current phase, accumulated injections for
the phase, per-category totals. -/
structure AnalyzerState where
  phase : Nat := 1
  accumulated : List ContextInjection := []
  tokensByCat : List (String × Nat) := []
deriving DecidableEq, Repr

/-- One iteration of `analyze_context`'s loop: returns the recorded stats
snapshot, the (possibly updated) chunk, and the next state. -/
def analyzeStep (allChunks : List Chunk) (chunk : Chunk) (i : Nat)
    (st : AnalyzerState) : ContextStats × Chunk × AnalyzerState :=
  if chunk.chunk_type = ChunkType.compact then
    let preCompactionTokens := injTokensSum st.accumulated
    let summaryTokens := estimateCompactSummaryTokens chunk
    let chunk' := { chunk with
      tokens_freed := max 0 ((preCompactionTokens : Int) - (summaryTokens : Int)) }
    let stats : ContextStats :=
      { phase_number := st.phase
        total_estimated_tokens := summaryTokens
        accumulated_injections := st.accumulated
        tokens_by_category := st.tokensByCat }
    (stats, chunk', { phase := st.phase + 1, accumulated := [], tokensByCat := [] })
  else
    let newInjections :=
      if chunk.chunk_type = ChunkType.ai then analyzeAIChunk chunk allChunks i
      else if chunk.chunk_type = ChunkType.user then analyzeUserChunk chunk i
      else []
    let accumulated := st.accumulated ++ newInjections
    let tokensByCat := newInjections.foldl
      (fun m inj => dictIncr m inj.category.value inj.estimated_tokens)
      st.tokensByCat
    let stats : ContextStats :=
      { new_injections := newInjections
        accumulated_injections := accumulated
        total_estimated_tokens := injTokensSum accumulated
        tokens_by_category := tokensByCat
        phase_number := st.phase }
    (stats, chunk, { phase := st.phase, accumulated := accumulated,
                     tokensByCat := tokensByCat })

/-- The analyzer's loop over the chunk list, also returning the final
state (the chunk list in the result reflects the `tokens_freed` updates
the source performs in place). -/
def analyzeGo (allChunks : List Chunk) :
    List Chunk → Nat → AnalyzerState →
      List ContextStats × List Chunk × AnalyzerState
  | [], _, st => ([], [], st)
  | c :: rest, i, st =>
      let step := analyzeStep allChunks c i st
      let tail := analyzeGo allChunks rest (i + 1) step.2.2
      (step.1 :: tail.1, step.2.1 :: tail.2.1, tail.2.2)

/-- `analyze_context` from `services/context_analyzer.py`: the stats
snapshots (first component) and the updated chunks (second component). -/
def analyze_context (chunks : List Chunk) : List ContextStats × List Chunk :=
  let r := analyzeGo chunks chunks 0 {}
  (r.1, r.2.1)

/-! ## Subagent resolver (`services/subagent_resolver.py`) -/

/-- Update the element at an index of a list (in-place mutation of the
chunk object the Python aliases point to). -/
def listUpdate {α : Type} : List α → Nat → (α → α) → List α
  | [], _, _ => []
  | x :: xs, 0, f => f x :: xs
  | x :: xs, n + 1, f => x :: listUpdate xs n f

/-- Phase-1 extraction of a tool result's text (string content, or the
concatenated `text` fields / bare strings of list content). -/
def trResultText (tr : ToolResult) : String :=
  match tr.content with
  | .str s => s
  | .items xs =>
      String.join (xs.map (fun x =>
        match x with
        | .dict t => t
        | .str s => s))
  | .other => ""

/-- The four agent-reference patterns sought in result text. -/
def matchesAgentRef (text agentId : String) : Bool :=
  let full := "agent-" ++ agentId
  strContains text full ||
    strContains text ("agentId: " ++ agentId) ||
    strContains text ("agentId\":\"" ++ full ++ "\"") ||
    strContains text ("\"agentId\":\"" ++ full ++ "\"")

/-- `_find_task_exec_for_tool_result`: exact unlinked Task match on the
tool-use id, else the first unlinked Task execution. -/
def findTaskExecForToolResult (texs : List ToolExecution) (toolUseId : String)
    (linkedTools : List String) : Option ToolExecution :=
  match texs.find? (fun t =>
      t.call.id == toolUseId && t.call.is_task &&
        !(linkedTools.contains t.call.id)) with
  | some t => some t
  | none =>
      texs.find? (fun t => t.call.is_task && !(linkedTools.contains t.call.id))

/-- Mutable state of `resolve_subagents`: the chunk list plus the
`linked_agent_ids` / `linked_tool_ids` sets. -/
structure ResolverState where
  chunks : List Chunk
  linkedAgents : List String := []
  linkedTools : List String := []
deriving DecidableEq, Repr

/-- Attach a process to the chunk at an index, record both link sets, and
set the process's `parent_task_id`. -/
def linkProcess (st : ResolverState) (i : Nat) (aid : String) (p : Process)
    (taskId : String) : ResolverState :=
  { st with
    chunks := listUpdate st.chunks i (fun c =>
      { c with processes := c.processes ++ [{ p with parent_task_id := taskId }] })
    linkedAgents := st.linkedAgents ++ [aid]
    linkedTools := st.linkedTools ++ [taskId] }

/-- Phase 1 inner loop over `subagent_map.items()` for one tool result:
link the first unlinked referenced agent with an available Task execution
and stop (the Python `break`). -/
def phase1TryAgents (texs : List ToolExecution) (i : Nat)
    (resultText toolUseId : String) :
    List (String × Process) → ResolverState → ResolverState
  | [], st => st
  | (aid, p) :: rest, st =>
      if st.linkedAgents.contains aid then
        phase1TryAgents texs i resultText toolUseId rest st
      else if matchesAgentRef resultText aid then
        match findTaskExecForToolResult texs toolUseId st.linkedTools with
        | some tex => linkProcess st i aid p tex.call.id
        | none => phase1TryAgents texs i resultText toolUseId rest st
      else phase1TryAgents texs i resultText toolUseId rest st

/-- Phase 1 (result-reference) scan of one message's tool results. -/
def phase1AMsg (subMap : List (String × Process)) (texs : List ToolExecution)
    (i : Nat) (msg : ParsedMessage) (st : ResolverState) : ResolverState :=
  msg.tool_results.foldl
    (fun st tr => phase1TryAgents texs i (trResultText tr) tr.tool_use_id subMap st)
    st

/-- Phase 1b helper: first tool result of the message that yields a Task
execution links the process (the Python `break`). -/
def phase1BFirstTR (texs : List ToolExecution) (i : Nat) (rid : String)
    (p : Process) : List ToolResult → ResolverState → ResolverState
  | [], st => st
  | tr :: rest, st =>
      match findTaskExecForToolResult texs tr.tool_use_id st.linkedTools with
      | some tex => linkProcess st i rid p tex.call.id
      | none => phase1BFirstTR texs i rid p rest st

/-- Phase 1b: messages whose own `agent_id` field carries `agent-<id>`. -/
def phase1BMsg (subMap : List (String × Process)) (texs : List ToolExecution)
    (i : Nat) (msg : ParsedMessage) (st : ResolverState) : ResolverState :=
  if msg.agent_id ≠ "" && "agent-".isPrefixOf msg.agent_id then
    let rid := msg.agent_id.drop 6
    match dictFind? subMap rid with
    | some p =>
        if st.linkedAgents.contains rid then st
        else phase1BFirstTR texs i rid p msg.tool_results st
    | none => st
  else st

/-- Phase 1 body for one AI chunk. -/
def phase1Chunk (subMap : List (String × Process)) (st : ResolverState)
    (i : Nat) : ResolverState :=
  match st.chunks[i]? with
  | none => st
  | some c =>
      let texs := c.tool_executions
      let st := c.messages.foldl (fun st msg => phase1AMsg subMap texs i msg st) st
      c.messages.foldl (fun st msg => phase1BMsg subMap texs i msg st) st

/-- Phase 2 inner loop over `subagent_map.items()` for one Task call:
link the first unlinked agent whose description fuzzy-matches. -/
def phase2TryAgents (i : Nat) (taskDesc tcId : String) :
    List (String × Process) → ResolverState → ResolverState
  | [], st => st
  | (aid, p) :: rest, st =>
      if st.linkedAgents.contains aid then phase2TryAgents i taskDesc tcId rest st
      else
        let procDesc := p.description.trim.toLower
        if procDesc = "" then phase2TryAgents i taskDesc tcId rest st
        else if strContains procDesc taskDesc || strContains taskDesc procDesc then
          linkProcess st i aid p tcId
        else phase2TryAgents i taskDesc tcId rest st

/-- Phase 2 (description match) body for one AI chunk. -/
def phase2Chunk (subMap : List (String × Process)) (st : ResolverState)
    (i : Nat) : ResolverState :=
  match st.chunks[i]? with
  | none => st
  | some c =>
      c.tool_executions.foldl
        (fun st tex =>
          if !tex.call.is_task then st
          else if st.linkedTools.contains tex.call.id then st
          else
            let taskDesc := tex.call.task_description.trim.toLower
            if taskDesc = "" then st
            else phase2TryAgents i taskDesc tex.call.id subMap st)
        st

/-- Indices of the AI chunks, in order (`ai_chunks` aliases the same
objects; we address them by position). -/
def aiIndices (chunks : List Chunk) : List Nat :=
  chunks.enum.filterMap (fun p =>
    if p.2.chunk_type == ChunkType.ai then some p.1 else none)

/-- Start-time sort key of an agent id (`subagent_map[aid].start_time`). -/
def agentStartKey (subMap : List (String × Process)) (aid : String) : Int :=
  ((dictFind? subMap aid).map (·.start_time)).getD 0

/-- Phase 3 (positional fallback): sort unlinked agents and unlinked Task
executions by start time and pair them 1:1. -/
def phase3 (subMap : List (String × Process)) (aiIdx : List Nat)
    (st : ResolverState) : ResolverState :=
  let sortedIds := (subMap.map (·.1)).insertionSort
    (fun a b => agentStartKey subMap a ≤ agentStartKey subMap b)
  let remainingAgents := (sortedIds.filter
    (fun aid => !st.linkedAgents.contains aid)).filterMap (dictFind? subMap)
  let remTexs := aiIdx.flatMap (fun i =>
    match st.chunks[i]? with
    | none => []
    | some c =>
        c.tool_executions.filterMap (fun tex =>
          if tex.call.is_task && !(st.linkedTools.contains tex.call.id) then
            some (i, tex.call.id, tex.start_time.getD c.start_time)
          else none))
  let remTexsSorted := remTexs.insertionSort (fun a b => a.2.2 ≤ b.2.2)
  (remainingAgents.zip remTexsSorted).foldl
    (fun st pr => linkProcess st pr.2.1 pr.1.id pr.1 pr.2.2.1)
    st

/-- `_detect_parallel_execution`: within each chunk, flag every process
whose start time is within 100 ms of another process in the same chunk. -/
def parallelMark (procs : List Process) : List Process :=
  if procs.length < 2 then procs
  else
    procs.enum.map (fun kp =>
      if procs.enum.any (fun mq =>
          mq.1 ≠ kp.1 &&
            (mq.2.start_time - kp.2.start_time).natAbs ≤ 100) then
        { kp.2 with is_parallel := true }
      else kp.2)

/-- The parallel-detection pass over every chunk. -/
def detectParallelExecution (chunks : List Chunk) : List Chunk :=
  chunks.map (fun c => { c with processes := parallelMark c.processes })

/-- `resolve_subagents` from `services/subagent_resolver.py`, taking the
parsed sub-agent processes (in discovered-path order) in place of the
directory scan + per-file parse, which are file-system I/O. -/
def resolve_subagents (chunks : List Chunk) (procs : List Process) :
    List Chunk :=
  if procs.isEmpty then chunks
  else
    let subMap := procs.foldl (fun m p => dictInsert m p.id p) []
    let aiIdx := aiIndices chunks
    let st : ResolverState := { chunks := chunks }
    let st := aiIdx.foldl (fun st i => phase1Chunk subMap st i) st
    let st := aiIdx.foldl (fun st i => phase2Chunk subMap st i) st
    let st := phase3 subMap aiIdx st
    detectParallelExecution st.chunks

/-! ## Metadata cache (`services/metadata_cache.py`) -/

/-- The columns of a `session_metadata` row that `is_stale` reads
(`mtime` is the REAL column, in seconds, modelled exactly). -/
structure CacheRow where
  file_size : Int
  mtime : ℚ
deriving DecidableEq, Repr

/-- The cache table keyed by `session_id` (primary key). -/
def MetadataCacheState : Type := List (String × CacheRow)

/-- `MetadataCache.is_stale`: a miss is stale; otherwise stale iff the
stored size differs or the mtimes differ by more than 0.001 s. -/
def is_stale (cache : MetadataCacheState) (sessionId : String)
    (fileSize : Int) (mtime : ℚ) : Bool :=
  match dictFind? cache sessionId with
  | none => true
  | some row => row.file_size != fileSize || |row.mtime - mtime| > 1 / 1000

/-! ## Path codec (`utils/path_codec.py`) -/

/-- Python `s.replace(a, b)` for single characters. -/
def replaceChar (s : String) (a b : Char) : String :=
  String.mk (s.toList.map (fun c => if c = a then b else c))

/-- `encode_path`: replace `/` and then `\` with `-`. -/
def encode_path (path : String) : String :=
  if path = "" then ""
  else replaceChar (replaceChar path '/' '-') '\\' '-'

/-- `[0-9a-fA-F]`. -/
def isHexChar (c : Char) : Bool :=
  c.isDigit || ('a' ≤ c && c ≤ 'f') || ('A' ≤ c && c ≤ 'F')

/-- The match of `re.match(r'^(.+?)::[0-9a-fA-F]{8}$', ·)` against a
character list with no trailing-newline allowance: a non-empty
newline-free prefix (group 1), `::`, and eight hex digits at the end. -/
def stripCoreMatch (cs : List Char) : Option (List Char) :=
  if cs.length ≥ 11 then
    let p := cs.take (cs.length - 10)
    let suf := cs.drop (cs.length - 10)
    match suf with
    | ':' :: ':' :: h =>
        if h.length = 8 && h.all isHexChar && !p.isEmpty && !p.contains '\n' then
          some p
        else none
    | _ => none
  else none

/-- `strip_composite_suffix` (Python `$` also matches just before a
single trailing newline, which is then not part of group 1). -/
def strip_composite_suffix (projectId : String) : String :=
  let cs := projectId.toList
  match stripCoreMatch cs with
  | some p => String.mk p
  | none =>
      match cs.getLast? with
      | some c =>
          if c = '\n' then
            match stripCoreMatch cs.dropLast with
            | some p => String.mk p
            | none => projectId
          else projectId
      | none => projectId

/-- `decode_path`: strip the composite suffix, then replace `-` with `/`. -/
def decode_path (encoded : String) : String :=
  if encoded = "" then ""
  else replaceChar (strip_composite_suffix encoded) '-' '/'

/-! ## Notification matcher (`services/notification_manager.py`,
`utils/regex_validator.py`) -/

/-- `NotificationTrigger` from `types/notifications.py` (fields the
matcher reads). -/
structure NotificationTrigger where
  id : String
  name : String := ""
  enabled : Bool := true
  pattern : String := ""
  match_fields : List String := []
  token_threshold : Nat := 0
  match_errors : Bool := false
deriving DecidableEq, Repr

/-- A fired notification-history entry (the wall-clock timestamp and the
random uuid of the source entry are not read anywhere and are omitted). -/
structure NotifEntry where
  trigger_id : String
  matched_text : String
  file_path : String
deriving DecidableEq, Repr

/-- The host regex engine behind `re.compile` / `safe_match`, abstracted:
`compileOk p` models whether `re.compile(p)` succeeds and `search p t`
models `safe_match(p, t)` (`none` covers both no-match and the
timeout/error path). -/
structure RegexEngine where
  compileOk : String → Bool
  search : String → String → Option String

/-- The `.value` strings of `MessageType`. -/
def MessageType.value : MessageType → String
  | .user => "user"
  | .assistant => "assistant"
  | .system => "system"
  | .summary => "summary"
  | .fileHistory => "file-history-snapshot"
  | .queueOp => "queue-operation"

/-- `_brackets_balanced` from `utils/regex_validator.py` (the stack is a
character list with its head as top). -/
def bracketsBalancedGo : List Char → List Char → Bool
  | stack, [] => stack.isEmpty
  | stack, c :: rest =>
      if c = '\\' then bracketsBalancedGo stack (rest.drop 1)
      else if c = '(' || c = '[' then bracketsBalancedGo (c :: stack) rest
      else if c = ')' then
        match stack with
        | '(' :: s => bracketsBalancedGo s rest
        | _ => false
      else if c = ']' then
        match stack with
        | '[' :: s => bracketsBalancedGo s rest
        | _ => false
      else bracketsBalancedGo stack rest
termination_by _ l => l.length
decreasing_by
  all_goals simp only [List.length_cons, List.length_drop]
  all_goals omega

/-- `[+*?]`. -/
def isQuantChar (c : Char) : Bool :=
  c = '+' || c = '*' || c = '?'

/-- Match of the `(?:\{[^}]+\})[+*?]` alternative at the head. -/
def nestedBraceAt : List Char → Bool
  | '{' :: rest =>
      let mid := rest.takeWhile (· ≠ '}')
      let after := rest.dropWhile (· ≠ '}')
      !mid.isEmpty &&
        (match after with
         | '}' :: q :: _ => isQuantChar q
         | _ => false)
  | _ => false

/-- `_NESTED_QUANTIFIER_RE.search`: two adjacent quantifier characters
(the optional `\??` collapses since `?` is itself in the class), or a
braced quantifier followed by a quantifier character. -/
def hasNestedQuant : List Char → Bool
  | [] => false
  | c :: rest =>
      (isQuantChar c &&
        (match rest with
         | d :: _ => isQuantChar d
         | [] => false)) ||
      nestedBraceAt (c :: rest) ||
      hasNestedQuant rest

/-- `validate_regex` (boolean part; the message component is unused by
the matcher). -/
def validate_regex (eng : RegexEngine) (pattern : String) : Bool :=
  if pattern = "" then false
  else if pattern.length > 100 then false
  else if !bracketsBalancedGo [] pattern.toList then false
  else if hasNestedQuant pattern.toList then false
  else eng.compileOk pattern

/-- `_extract_matchable_text`. -/
def extractMatchableText (msg : ParsedMessage) (t : NotificationTrigger) :
    String :=
  let role := if msg.role = "" then msg.type.value else msg.role
  if !t.match_fields.isEmpty && !t.match_fields.contains role then ""
  else
    match msg.content with
    | .str s => s
    | .blocks bs =>
        String.intercalate " " (bs.filterMap (fun b =>
          match b with
          | .dict d => if d.type = "text" then some d.text else none
          | .str _ => none))

/-- `_check_message_triggers`: the entries fired for one message, one per
matching enabled trigger. -/
def checkMessageTriggers (eng : RegexEngine)
    (triggers : List NotificationTrigger) (msg : ParsedMessage)
    (filePath : String) : List NotifEntry :=
  triggers.filterMap (fun trigger =>
    if !trigger.enabled then none
    else
      let patternCheck : Option NotifEntry :=
        if trigger.pattern = "" then none
        else
          let text := extractMatchableText msg trigger
          if text = "" then none
          else if !validate_regex eng trigger.pattern then none
          else
            match eng.search trigger.pattern text with
            | some m =>
                some { trigger_id := trigger.id, matched_text := m.take 100,
                       file_path := filePath }
            | none => none
      match msg.usage with
      | some u =>
          if trigger.token_threshold > 0 &&
              u.output_tokens ≥ trigger.token_threshold then
            some { trigger_id := trigger.id
                   matched_text := "Output tokens: " ++ toString u.output_tokens
                   file_path := filePath }
          else patternCheck
      | none => patternCheck)

/-- A file visible to the matcher: its byte size and the messages that
`stream_session_from_offset` yields from a given byte offset. -/
structure SessionFile where
  size : Nat
  msgsFrom : Nat → List ParsedMessage

/-- `NotificationManager` state touched by `check_file`. -/
structure NMState where
  triggers : List NotificationTrigger := []
  fileOffsets : List (String × Nat) := []
  history : List NotifEntry := []
deriving DecidableEq, Repr

/-- `NotificationManager.check_file`: first sight records the current
size and fires nothing; otherwise parse from the stored offset when the
file grew, fire matches, and advance the offset.  Returns the new state
and the fired entries. -/
def check_file (eng : RegexEngine) (fs : String → Option SessionFile)
    (st : NMState) (filePath : String) : NMState × List NotifEntry :=
  match fs filePath with
  | none => (st, [])
  | some f =>
      if !dictHas st.fileOffsets filePath then
        ({ st with fileOffsets := dictInsert st.fileOffsets filePath f.size }, [])
      else
        let offset := dictGet st.fileOffsets filePath 0
        if offset ≥ f.size then (st, [])
        else
          let fired := (f.msgsFrom offset).flatMap
            (fun msg => checkMessageTriggers eng st.triggers msg filePath)
          let h := st.history ++ fired
          ({ st with
             fileOffsets := dictInsert st.fileOffsets filePath f.size
             history := h.drop (h.length - 200) }, fired)

/-! ## Specification-side definitions used by the claim statements -/

/-- The chunk comparison of the determinism claim: equal ids and equal
sets of contained record ids. -/
def chunkSameIdSet (c₁ c₂ : Chunk) : Bool :=
  c₁.id == c₂.id &&
    (c₁.messages.map (·.uuid)).all
      (fun u => (c₂.messages.map (·.uuid)).contains u) &&
    (c₂.messages.map (·.uuid)).all
      (fun u => (c₁.messages.map (·.uuid)).contains u)

/-- Pointwise `chunkSameIdSet` comparison of two chunk lists of equal
length. -/
def chunkListsMatch (l₁ l₂ : List Chunk) : Bool :=
  l₁.length == l₂.length && (l₁.zip l₂).all (fun p => chunkSameIdSet p.1 p.2)

/-- The AI-chunk status rule as the specification words it: the
`stop_reason = max_tokens` block is sought in **every** buffered record,
not just the last one. -/
def claimedStatusSpec (messages : List ParsedMessage) : AIGroupStatus :=
  if messages.any (fun m => m.tool_results.any (·.is_error)) then .error
  else if messages.any (fun m => contentHasMaxTokens m.content) then .interrupted
  else .complete

/-- Number of Compact chunks in a list. -/
def compactCount (chunks : List Chunk) : Nat :=
  chunks.countP (fun c => c.chunk_type == ChunkType.compact)

/-- Occurrences of an agent id among all processes of all chunks. -/
def procIdCount : List Chunk → String → Nat
  | [], _ => 0
  | c :: rest, a => (c.processes.map (·.id)).count a + procIdCount rest a

/-- Invariant carried through the resolver's linking phases: every agent
id occurs among the chunks' processes at most once, and only after it has
entered the linked set. -/
def ResolverInv (st : ResolverState) : Prop :=
  ∀ a, procIdCount st.chunks a ≤ (if a ∈ st.linkedAgents then 1 else 0)

/-- Split a character list into its `/`-separated segments. -/
def splitSegs : List Char → List (List Char)
  | [] => [[]]
  | c :: rest =>
      let r := splitSegs rest
      if c = '/' then [] :: r
      else (c :: r.headD []) :: r.tail

/-- The path-codec claim's hypothesis: no segment of the path contains a
`-` character. -/
def segmentsNoDash (p : String) : Bool :=
  (splitSegs p.toList).all (fun seg => seg.all (· ≠ '-'))

/-! ## Concrete inputs used by witnesses and counterexamples -/

/-- An assistant record at t = 1000 ms. -/
def exAsst1 : ParsedMessage := { uuid := "a1", type := .assistant, timestamp := 1000 }

/-- An assistant record at t = 0 ms (earlier than `exAsst1`). -/
def exAsst2 : ParsedMessage := { uuid := "a2", type := .assistant, timestamp := 0 }

/-- A real user record with plain text content. -/
def exUser : ParsedMessage :=
  { uuid := "u1", type := .user, timestamp := 5, content := .str "hello" }

/-- An assistant record whose content carries `stop_reason = max_tokens`. -/
def exMaxTok : ParsedMessage :=
  { uuid := "m1", type := .assistant, timestamp := 0,
    content := .blocks [.dict { stop_reason := "max_tokens" }] }

/-- An assistant record with no stop reason. -/
def exPlain : ParsedMessage := { uuid := "m2", type := .assistant, timestamp := 7 }

/-- A compact-summary record with empty content. -/
def exCompactMsg : ParsedMessage :=
  { uuid := "c1", type := .summary, timestamp := 9, is_compact_summary := true }

/-- User chunk built from `exUser` (1 estimated token of user text). -/
def exUserChunk : Chunk := mkUserChunk 0 exUser

/-- Compact chunk built from `exCompactMsg` (0 summary tokens). -/
def exCompactChunk : Chunk := mkCompactChunk 1 exCompactMsg

/-- A second user chunk used after the compact boundary. -/
def exUserChunk2 : Chunk :=
  mkUserChunk 2 { exUser with uuid := "u2", content := .str "worldly" }

/-- A Task tool call used by the resolver witness. -/
def exTaskCall : ToolCall :=
  { id := "toolu_1", name := "Task", is_task := true, task_description := "do x" }

/-- An assistant record issuing `exTaskCall` and seeing a result that
references `agent-abc`. -/
def exTaskMsg : ParsedMessage :=
  { uuid := "t1", type := .assistant, timestamp := 0,
    tool_calls := [exTaskCall],
    tool_results := [{ tool_use_id := "toolu_1", content := .str "agent-abc" }] }

/-- AI chunk holding the Task execution. -/
def exAIChunkTask : Chunk := mkAIChunk 1 [exTaskMsg]

/-- The discovered sub-agent process for `agent-abc.jsonl`. -/
def exProcAbc : Process := { id := "abc", start_time := 0, description := "do x" }

/-- A trivial regex engine used by notification witnesses. -/
def exEngine : RegexEngine :=
  { compileOk := fun _ => true, search := fun _ _ => none }

/-- A one-file file system whose file holds one plain message. -/
def exFS : String → Option SessionFile := fun p =>
  if p = "log.jsonl" then
    some { size := 7, msgsFrom := fun _ => [exPlain] }
  else none

/-- A matcher state with one enabled catch-all-free trigger and no
recorded offsets. -/
def exNMState : NMState :=
  { triggers := [{ id := "t-env", pattern := "env", match_fields := [] }] }

/-- A matcher state that already tracks `log.jsonl` at offset 9. -/
def exNMState2 : NMState :=
  { triggers := [{ id := "t-env", pattern := "env", match_fields := [] }]
    fileOffsets := [("log.jsonl", 9)] }

/-- The chunk list of the compaction-boundary witness. -/
def exChunks3 : List Chunk := [exUserChunk, exCompactChunk, exUserChunk2]

/-! ## Helper lemmas -/

theorem dictFind?_dictInsert_self {α : Type} (m : List (String × α))
    (k : String) (v : α) : dictFind? (dictInsert m k v) k = some v := by
  induction m with
  | nil => simp [dictInsert, dictFind?, List.find?]
  | cons kv rest ih =>
      by_cases h : kv.1 = k
      · simp [dictInsert, h, dictFind?, List.find?]
      · simp only [dictInsert]
        rw [if_neg h]
        simp only [dictFind?, List.find?] at ih ⊢
        rw [show (kv.1 == k) = false by simp [h]]
        exact ih

theorem dictGet_eq_of_find? {α : Type} {m : List (String × α)} {k : String}
    {v : α} (d : α) (h : dictFind? m k = some v) : dictGet m k d = v := by
  unfold dictFind? at h
  unfold dictGet
  cases hf : m.find? (fun kv => kv.1 == k) with
  | none => rw [hf] at h; simp at h
  | some kv => rw [hf] at h; simp at h; simp [h]

theorem dictHas_of_find? {α : Type} {m : List (String × α)} {k : String}
    {v : α} (h : dictFind? m k = some v) : dictHas m k = true := by
  unfold dictFind? at h
  unfold dictHas
  cases hf : m.find? (fun kv => kv.1 == k) with
  | none => rw [hf] at h; simp at h
  | some kv => simp [hf]

/-! ## C3 — AI-chunk status rule -/

/-- **C3 counterexample.** A buffer whose *earlier* record carries a
`stop_reason = max_tokens` block yields status `complete` from the code,
while the claimed rule (any buffered record) yields `interrupted`. -/
theorem ai_chunk_status_rule_cx :
    (mkAIChunk 0 [exMaxTok, exPlain]).status = .complete ∧
      claimedStatusSpec [exMaxTok, exPlain] = .interrupted := by
  constructor <;> decide

/-- **C3 (amended).** For a non-empty buffer flushed into an AI chunk the
status is `error` if any buffered tool result has `is_error` true; else
`interrupted` if the **last** buffered record carries a content block with
`stop_reason = max_tokens`; else `complete`. -/
theorem ai_chunk_status_rule (counter : Nat) (messages : List ParsedMessage)
    (lastMsg : ParsedMessage) (hl : messages.getLast? = some lastMsg) :
    (mkAIChunk counter messages).status =
      if messages.any (fun m => m.tool_results.any (·.is_error)) then .error
      else if contentHasMaxTokens lastMsg.content then .interrupted
      else .complete := by
  have hne : messages ≠ [] := by
    intro h
    rw [h] at hl
    simp at hl
  show determine_status messages = _
  unfold determine_status
  rw [if_neg (by simp [hne]), hl]

/-- Witness for `ai_chunk_status_rule` at a concrete buffer. -/
theorem ai_chunk_status_rule_witness :
    (mkAIChunk 0 [exMaxTok, exPlain]).status = .complete := by
  have h := ai_chunk_status_rule 0 [exMaxTok, exPlain] exPlain (by decide)
  rw [h]
  decide

/-! ## C6 — AI-chunk duration -/

/-- **C6 counterexample.** Out-of-order timestamps (1000 ms then 0 ms)
make the flushed AI chunk's duration −1000 ms: the code does not clamp. -/
theorem ai_chunk_duration_rule_cx :
    (build_chunks [exAsst1, exAsst2]).map (·.metrics.duration_ms) = [-1000] ∧
      (-1000 : Int) < 0 := by
  constructor <;> decide

/-- **C6 (amended).** The duration metric of a flushed AI chunk equals the
last buffered record's timestamp minus the first's, in milliseconds, with
no clamping (so it is negative when timestamps are out of order). -/
theorem ai_chunk_duration_rule (counter : Nat) (messages : List ParsedMessage)
    (firstMsg lastMsg : ParsedMessage)
    (h1 : messages.head? = some firstMsg)
    (h2 : messages.getLast? = some lastMsg) :
    (mkAIChunk counter messages).metrics.duration_ms =
      lastMsg.timestamp - firstMsg.timestamp := by
  simp [mkAIChunk, h1, h2]

/-- Witness for `ai_chunk_duration_rule` at a concrete buffer. -/
theorem ai_chunk_duration_rule_witness :
    (mkAIChunk 0 [exAsst2, exAsst1]).metrics.duration_ms = 1000 := by
  have h := ai_chunk_duration_rule 0 [exAsst2, exAsst1] exAsst2 exAsst1
    (by decide) (by decide)
  rw [h]
  decide

/-! ## C7 — cache staleness rule -/

/-- **C7.** `is_stale` is true exactly when the session has no cached row,
or the stored size differs, or the stored and given mtimes (seconds)
differ by more than 1 ms. -/
theorem is_stale_rule (cache : MetadataCacheState) (sessionId : String)
    (fileSize : Int) (mtime : ℚ) :
    is_stale cache sessionId fileSize mtime = true ↔
      dictFind? cache sessionId = none ∨
        ∃ row, dictFind? cache sessionId = some row ∧
          (row.file_size ≠ fileSize ∨ |row.mtime - mtime| > 1 / 1000) := by
  unfold is_stale
  cases h : dictFind? cache sessionId with
  | none => simp
  | some row => simp [bne_iff_ne]

/-! ## C8 — path-codec round trip -/

theorem string_mk_toList (l : List Char) : (String.mk l).toList = l := rfl

theorem string_toList_inj {s t : String} (h : s.toList = t.toList) : s = t := by
  cases s
  cases t
  exact congrArg String.mk h

/-- **C8 counterexample.** `"a::12345678"` has no `-` in any segment,
yet `decode_path` strips its `::<8-hex>` composite suffix, so the round
trip returns `"a"`. -/
theorem path_codec_roundtrip_cx :
    segmentsNoDash "a::12345678" = true ∧
      decode_path (encode_path "a::12345678") ≠ "a::12345678" := by
  constructor <;> decide

/-- **C8 (amended).** `decode_path (encode_path p) = p` for every `p` that
contains no `-` (equivalently: no segment contains one), contains no `\`
(which also encodes to `-`), and whose encoded form carries no
`::<8-hex>` composite suffix for `decode_path` to strip. -/
theorem path_codec_roundtrip (p : String)
    (h1 : p.toList.all (· ≠ '-') = true)
    (h2 : p.toList.all (· ≠ '\\') = true)
    (h3 : strip_composite_suffix (encode_path p) = encode_path p) :
    decode_path (encode_path p) = p := by
  by_cases hp : p = ""
  · subst hp; rfl
  · have henc : (encode_path p).toList =
        p.toList.map (fun c => if c = '/' then '-' else c) := by
      simp only [encode_path, if_neg hp, replaceChar, string_mk_toList,
        List.map_map]
      apply List.map_congr_left
      intro c hc
      have hbs : c ≠ '\\' := by simpa using List.all_eq_true.mp h2 c hc
      by_cases h : c = '/'
      · simp [h, Function.comp]
      · simp [h, hbs, Function.comp]
    have hne : encode_path p ≠ "" := by
      intro h
      have hl : (encode_path p).toList = [] := by rw [h]; rfl
      rw [henc] at hl
      simp only [List.map_eq_nil_iff] at hl
      exact hp (string_toList_inj hl)
    apply string_toList_inj
    have hdec : (decode_path (encode_path p)).toList =
        (encode_path p).toList.map (fun c => if c = '-' then '/' else c) := by
      simp only [decode_path, if_neg hne, h3, replaceChar, string_mk_toList]
    rw [hdec, henc, List.map_map]
    have hid : ∀ c ∈ p.toList,
        ((fun c => if c = '-' then '/' else c) ∘
          (fun c => if c = '/' then '-' else c)) c = c := by
      intro c hc
      have hd : c ≠ '-' := by simpa using List.all_eq_true.mp h1 c hc
      by_cases h : c = '/'
      · simp [h, Function.comp]
      · simp [h, hd, Function.comp]
    rw [List.map_congr_left hid]
    simp

/-- Witness for `path_codec_roundtrip` at `/home/wiz/AI`. -/
theorem path_codec_roundtrip_witness :
    decode_path (encode_path "/home/wiz/AI") = "/home/wiz/AI" :=
  path_codec_roundtrip "/home/wiz/AI" (by decide) (by decide) (by decide)

/-! ## C9 — notification first-sight policy -/

/-- **C9.** For a path the matcher has not yet recorded an offset for
(and an existing file), `check_file` fires zero notifications regardless
of the file's content, and afterwards the stored offset for that path is
the file's current size. -/
theorem notification_first_sight (eng : RegexEngine)
    (fs : String → Option SessionFile) (st : NMState) (path : String)
    (f : SessionFile) (hf : fs path = some f)
    (hnew : dictHas st.fileOffsets path = false) :
    (check_file eng fs st path).2 = [] ∧
      dictFind? (check_file eng fs st path).1.fileOffsets path = some f.size := by
  unfold check_file
  rw [hf]
  simp only [hnew, Bool.not_false, if_pos]
  exact ⟨trivial, dictFind?_dictInsert_self _ _ _⟩

/-- Witness for `notification_first_sight`: a fresh matcher state, a
one-message file of size 7. -/
theorem notification_first_sight_witness :
    (check_file exEngine exFS exNMState "log.jsonl").2 = [] ∧
      dictFind? (check_file exEngine exFS exNMState "log.jsonl").1.fileOffsets
        "log.jsonl" = some (7 : Nat) :=
  notification_first_sight exEngine exFS exNMState "log.jsonl"
    { size := 7, msgsFrom := fun _ => [exPlain] } (by rfl) (by decide)

/-! ## C10 — notification-offset monotonicity -/

theorem check_file_known_small (eng : RegexEngine)
    (fs : String → Option SessionFile) (st : NMState) (path : String)
    (f : SessionFile) (off : Nat)
    (hoff : dictFind? st.fileOffsets path = some off)
    (hf : fs path = some f) (hle : f.size ≤ off) :
    check_file eng fs st path = (st, []) := by
  have hhas := dictHas_of_find? hoff
  have hget := dictGet_eq_of_find? 0 hoff
  unfold check_file
  rw [hf]
  simp [hhas, hget, hle]

theorem check_file_offset_mono (eng : RegexEngine)
    (fs : String → Option SessionFile) (st : NMState) (path : String)
    (off : Nat) (hoff : dictFind? st.fileOffsets path = some off) :
    ∃ off', dictFind? (check_file eng fs st path).1.fileOffsets path = some off' ∧
      off ≤ off' := by
  unfold check_file
  cases hf : fs path with
  | none => exact ⟨off, hoff, le_refl off⟩
  | some f =>
      have hhas := dictHas_of_find? hoff
      have hget := dictGet_eq_of_find? 0 hoff
      simp only [hhas, hget, Bool.not_true, Bool.false_eq_true, if_false]
      by_cases hsz : off ≥ f.size
      · simp only [if_pos hsz]
        exact ⟨off, hoff, le_refl off⟩
      · simp only [if_neg hsz]
        exact ⟨f.size, dictFind?_dictInsert_self _ _ _, by omega⟩

/-- **C10.** A `check_file` call never decreases the stored offset of a
tracked path, and when the file's current size is at most the stored
offset the call fires zero notifications and leaves the whole state
unchanged. -/
theorem notification_offset_monotone (eng : RegexEngine)
    (fs : String → Option SessionFile) (st : NMState) (path : String)
    (off : Nat) (hoff : dictFind? st.fileOffsets path = some off) :
    (∃ off', dictFind? (check_file eng fs st path).1.fileOffsets path = some off' ∧
      off ≤ off') ∧
    (∀ f, fs path = some f → f.size ≤ off →
      check_file eng fs st path = (st, [])) :=
  ⟨check_file_offset_mono eng fs st path off hoff,
   fun f hf hle => check_file_known_small eng fs st path f off hoff hf hle⟩

/-- Witness for `notification_offset_monotone`: tracked offset 9, file
size 7 ≤ 9: the state is unchanged and nothing fires. -/
theorem notification_offset_monotone_witness :
    check_file exEngine exFS exNMState2 "log.jsonl" = (exNMState2, []) :=
  (notification_offset_monotone exEngine exFS exNMState2 "log.jsonl" 9
    (by decide)).2 { size := 7, msgsFrom := fun _ => [exPlain] } (by rfl) (by decide)

/-! ## C2 / C4 — context analyzer lemmas -/

theorem injTokensSum_append (a b : List ContextInjection) :
    injTokensSum (a ++ b) = injTokensSum a + injTokensSum b := by
  simp [injTokensSum]

theorem dictIncr_sum (m : List (String × Nat)) (k : String) (n : Nat) :
    dictValuesSum (dictIncr m k n) = dictValuesSum m + n := by
  induction m with
  | nil => simp [dictIncr, dictInsert, dictGet, dictValuesSum, List.find?]
  | cons kv rest ih =>
      by_cases h : kv.1 = k
      · simp only [dictIncr, dictInsert, dictGet, List.find?, if_pos h,
          show (kv.1 == k) = true by simp [h], dictValuesSum, List.map_cons,
          List.sum_cons]
        omega
      · simp only [dictIncr, dictInsert, dictGet, List.find?, if_neg h,
          show (kv.1 == k) = false by simp [h], dictValuesSum, List.map_cons,
          List.sum_cons] at ih ⊢
        omega

theorem foldl_dictIncr_sum (injs : List ContextInjection)
    (m : List (String × Nat)) :
    dictValuesSum (injs.foldl
      (fun m inj => dictIncr m inj.category.value inj.estimated_tokens) m) =
      dictValuesSum m + injTokensSum injs := by
  induction injs generalizing m with
  | nil => simp [injTokensSum]
  | cons i rest ih =>
      simp only [List.foldl_cons, ih, dictIncr_sum, injTokensSum,
        List.map_cons, List.sum_cons]
      omega

theorem analyzeStep_compact_spec (all : List Chunk) (c : Chunk) (i : Nat)
    (st : AnalyzerState) (h : c.chunk_type = ChunkType.compact) :
    (analyzeStep all c i st).1.accumulated_injections = st.accumulated ∧
    (analyzeStep all c i st).1.new_injections = [] ∧
    (analyzeStep all c i st).1.tokens_by_category = st.tokensByCat ∧
    (analyzeStep all c i st).1.phase_number = st.phase ∧
    (analyzeStep all c i st).2.1 =
      { c with
        tokens_freed :=
          max 0 ((injTokensSum st.accumulated : Int) -
            (estimateCompactSummaryTokens c : Int)) } ∧
    (analyzeStep all c i st).2.2 =
      { phase := st.phase + 1, accumulated := [], tokensByCat := [] } := by
  unfold analyzeStep
  rw [if_pos h]
  exact ⟨rfl, rfl, rfl, rfl, rfl, rfl⟩

theorem analyzeStep_noncompact_spec (all : List Chunk) (c : Chunk) (i : Nat)
    (st : AnalyzerState) (h : ¬c.chunk_type = ChunkType.compact) :
    (analyzeStep all c i st).1.accumulated_injections =
      st.accumulated ++ (analyzeStep all c i st).1.new_injections ∧
    (analyzeStep all c i st).1.total_estimated_tokens =
      injTokensSum (analyzeStep all c i st).1.accumulated_injections ∧
    (analyzeStep all c i st).1.tokens_by_category =
      (analyzeStep all c i st).1.new_injections.foldl
        (fun m inj => dictIncr m inj.category.value inj.estimated_tokens)
        st.tokensByCat ∧
    (analyzeStep all c i st).1.phase_number = st.phase ∧
    (analyzeStep all c i st).2.1 = c ∧
    (analyzeStep all c i st).2.2.phase = st.phase ∧
    (analyzeStep all c i st).2.2.accumulated =
      (analyzeStep all c i st).1.accumulated_injections ∧
    (analyzeStep all c i st).2.2.tokensByCat =
      (analyzeStep all c i st).1.tokens_by_category := by
  unfold analyzeStep
  rw [if_neg h]
  exact ⟨rfl, rfl, rfl, rfl, rfl, rfl, rfl, rfl⟩

theorem analyzeStep_state_inv (all : List Chunk) (c : Chunk) (i : Nat)
    (st : AnalyzerState)
    (h : dictValuesSum st.tokensByCat = injTokensSum st.accumulated) :
    dictValuesSum (analyzeStep all c i st).2.2.tokensByCat =
      injTokensSum (analyzeStep all c i st).2.2.accumulated := by
  by_cases hc : c.chunk_type = ChunkType.compact
  · obtain ⟨-, -, -, -, -, h6⟩ := analyzeStep_compact_spec all c i st hc
    rw [h6]
    simp [dictValuesSum, injTokensSum]
  · obtain ⟨h1, -, h3, -, -, -, h7, h8⟩ := analyzeStep_noncompact_spec all c i st hc
    rw [h7, h8, h1, h3, foldl_dictIncr_sum, injTokensSum_append, h]

theorem analyzeStep_stats_inv (all : List Chunk) (c : Chunk) (i : Nat)
    (st : AnalyzerState)
    (h : dictValuesSum st.tokensByCat = injTokensSum st.accumulated) :
    dictValuesSum (analyzeStep all c i st).1.tokens_by_category =
      injTokensSum (analyzeStep all c i st).1.accumulated_injections ∧
    (c.chunk_type ≠ ChunkType.compact →
      (analyzeStep all c i st).1.total_estimated_tokens =
        injTokensSum (analyzeStep all c i st).1.accumulated_injections) := by
  by_cases hc : c.chunk_type = ChunkType.compact
  · obtain ⟨h1, -, h3, -, -, -⟩ := analyzeStep_compact_spec all c i st hc
    rw [h1, h3]
    exact ⟨h, fun hne => absurd hc hne⟩
  · obtain ⟨h1, h2, h3, -, -, -, -, -⟩ := analyzeStep_noncompact_spec all c i st hc
    refine ⟨?_, fun _ => h2⟩
    rw [h1, h3, foldl_dictIncr_sum, injTokensSum_append, h]

theorem analyzeGo_cons (all : List Chunk) (c : Chunk) (rest : List Chunk)
    (i : Nat) (st : AnalyzerState) :
    analyzeGo all (c :: rest) i st =
      ((analyzeStep all c i st).1 ::
         (analyzeGo all rest (i + 1) (analyzeStep all c i st).2.2).1,
       (analyzeStep all c i st).2.1 ::
         (analyzeGo all rest (i + 1) (analyzeStep all c i st).2.2).2.1,
       (analyzeGo all rest (i + 1) (analyzeStep all c i st).2.2).2.2) := by
  simp only [analyzeGo]

theorem analyzeGo_stats_length (all rest : List Chunk) (i : Nat)
    (st : AnalyzerState) : (analyzeGo all rest i st).1.length = rest.length := by
  induction rest generalizing i st with
  | nil => rfl
  | cons c rest ih => rw [analyzeGo_cons]; simp [ih]

theorem analyzeGo_chunks_length (all rest : List Chunk) (i : Nat)
    (st : AnalyzerState) : (analyzeGo all rest i st).2.1.length = rest.length := by
  induction rest generalizing i st with
  | nil => rfl
  | cons c rest ih => rw [analyzeGo_cons]; simp [ih]

theorem analyzeGo_stats_inv (all rest : List Chunk) (i : Nat)
    (st : AnalyzerState)
    (h : dictValuesSum st.tokensByCat = injTokensSum st.accumulated)
    (j : Nat) (c : Chunk) (s : ContextStats)
    (hc : rest[j]? = some c) (hs : (analyzeGo all rest i st).1[j]? = some s) :
    dictValuesSum s.tokens_by_category = injTokensSum s.accumulated_injections ∧
    (c.chunk_type ≠ ChunkType.compact →
      s.total_estimated_tokens = injTokensSum s.accumulated_injections) := by
  induction rest generalizing i st j with
  | nil => simp at hc
  | cons c0 rest ih =>
      rw [analyzeGo_cons] at hs
      cases j with
      | zero =>
          rw [List.getElem?_cons_zero] at hc hs
          obtain rfl : c0 = c := Option.some_injective _ hc
          obtain rfl := Option.some_injective _ hs
          exact analyzeStep_stats_inv all _ i st h
      | succ j =>
          rw [List.getElem?_cons_succ] at hc hs
          exact ih (i + 1) _ (analyzeStep_state_inv all c0 i st h) j hc hs

/-! ## C2 — category-sum identity -/

/-- **C2 counterexample.** On the snapshot recorded for a Compact chunk
the per-category totals sum to the pre-compaction accumulated tokens (1)
while the snapshot's total is the compact summary's estimate (0). -/
theorem category_sum_identity_cx :
    ((analyze_context [exUserChunk, exCompactChunk]).1[1]?.map
      (fun s => (dictValuesSum s.tokens_by_category,
                 s.total_estimated_tokens))) = some (1, 0) ∧ (1 : Nat) ≠ 0 := by
  constructor <;> decide

/-- **C2 (amended).** After every snapshot the per-category totals sum to
the estimated tokens of the snapshot's accumulated injections; for every
non-Compact chunk this equals the snapshot's total estimated tokens
(Σ per-category = total), while a Compact snapshot's total is the compact
summary's estimate instead. -/
theorem category_sum_identity (chunks : List Chunk) (j : Nat) (c : Chunk)
    (s : ContextStats) (hc : chunks[j]? = some c)
    (hs : (analyze_context chunks).1[j]? = some s) :
    dictValuesSum s.tokens_by_category = injTokensSum s.accumulated_injections ∧
    (c.chunk_type ≠ ChunkType.compact →
      s.total_estimated_tokens = injTokensSum s.accumulated_injections) :=
  analyzeGo_stats_inv chunks chunks 0 {} (by simp [dictValuesSum, injTokensSum])
    j c s hc hs

/-- Witness for `category_sum_identity` at a one-chunk list. -/
theorem category_sum_identity_witness :
    dictValuesSum ((analyze_context [exUserChunk]).1[0]?.getD
        ({ phase_number := 1 } : ContextStats)).tokens_by_category =
      injTokensSum ((analyze_context [exUserChunk]).1[0]?.getD
        ({ phase_number := 1 } : ContextStats)).accumulated_injections ∧
    (exUserChunk.chunk_type ≠ ChunkType.compact →
      ((analyze_context [exUserChunk]).1[0]?.getD ({ phase_number := 1 } : ContextStats)).total_estimated_tokens =
        injTokensSum ((analyze_context [exUserChunk]).1[0]?.getD
          ({ phase_number := 1 } : ContextStats)).accumulated_injections) :=
  category_sum_identity [exUserChunk] 0 exUserChunk
    ((analyze_context [exUserChunk]).1[0]?.getD ({ phase_number := 1 } : ContextStats)) (by decide) (by decide)

/-! ## C4 — compact semantics -/

theorem compactCount_cons (c : Chunk) (l : List Chunk) :
    compactCount (c :: l) =
      (if c.chunk_type = ChunkType.compact then 1 else 0) + compactCount l := by
  simp only [compactCount, List.countP_cons, beq_iff_eq]
  omega

theorem analyzeStep_phase (all : List Chunk) (c : Chunk) (i : Nat)
    (st : AnalyzerState) :
    (analyzeStep all c i st).1.phase_number = st.phase ∧
    (analyzeStep all c i st).2.2.phase =
      st.phase + (if c.chunk_type = ChunkType.compact then 1 else 0) := by
  by_cases h : c.chunk_type = ChunkType.compact
  · obtain ⟨-, -, -, h4, -, h6⟩ := analyzeStep_compact_spec all c i st h
    rw [h4, h6, if_pos h]
    exact ⟨rfl, rfl⟩
  · obtain ⟨-, -, -, h4, -, h6, -, -⟩ := analyzeStep_noncompact_spec all c i st h
    rw [h4, h6, if_neg h]
    exact ⟨rfl, rfl⟩

theorem analyzeGo_phase (all rest : List Chunk) (i : Nat) (st : AnalyzerState)
    (j : Nat) (s : ContextStats)
    (hs : (analyzeGo all rest i st).1[j]? = some s) :
    s.phase_number = st.phase + compactCount (rest.take j) := by
  induction rest generalizing i st j with
  | nil =>
      rw [show (analyzeGo all [] i st).1 = [] from rfl] at hs
      simp at hs
  | cons c rest ih =>
      rw [analyzeGo_cons] at hs
      cases j with
      | zero =>
          rw [List.getElem?_cons_zero] at hs
          obtain rfl := Option.some_injective _ hs
          rw [(analyzeStep_phase all c i st).1]
          simp [compactCount]
      | succ j =>
          rw [List.getElem?_cons_succ] at hs
          rw [ih (i + 1) _ j hs, (analyzeStep_phase all c i st).2,
            List.take_succ_cons, compactCount_cons]
          omega

theorem analyzeGo_compact_out (all rest : List Chunk) (i : Nat)
    (st : AnalyzerState) (j : Nat) (c : Chunk) (s : ContextStats)
    (hc : rest[j]? = some c) (hcomp : c.chunk_type = ChunkType.compact)
    (hs : (analyzeGo all rest i st).1[j]? = some s) :
    (analyzeGo all rest i st).2.1[j]? =
      some { c with
             tokens_freed :=
               max 0 ((injTokensSum s.accumulated_injections : Int) -
                 (estimateCompactSummaryTokens c : Int)) } := by
  induction rest generalizing i st j with
  | nil => simp at hc
  | cons c0 rest ih =>
      rw [analyzeGo_cons] at hs ⊢
      cases j with
      | zero =>
          rw [List.getElem?_cons_zero] at hc hs ⊢
          obtain rfl : c0 = c := Option.some_injective _ hc
          obtain rfl := Option.some_injective _ hs
          obtain ⟨h1, -, -, -, h5, -⟩ := analyzeStep_compact_spec all _ i st hcomp
          rw [h5, h1]
      | succ j =>
          rw [List.getElem?_cons_succ] at hc hs ⊢
          exact ih _ _ j hc hs

theorem analyzeGo_append (all l₁ l₂ : List Chunk) (i : Nat)
    (st : AnalyzerState) :
    analyzeGo all (l₁ ++ l₂) i st =
      ((analyzeGo all l₁ i st).1 ++
         (analyzeGo all l₂ (i + l₁.length) (analyzeGo all l₁ i st).2.2).1,
       (analyzeGo all l₁ i st).2.1 ++
         (analyzeGo all l₂ (i + l₁.length) (analyzeGo all l₁ i st).2.2).2.1,
       (analyzeGo all l₂ (i + l₁.length) (analyzeGo all l₁ i st).2.2).2.2) := by
  induction l₁ generalizing i st with
  | nil => simp [analyzeGo]
  | cons c l₁ ih =>
      rw [List.cons_append, analyzeGo_cons, analyzeGo_cons, ih]
      have harith : i + 1 + l₁.length = i + (c :: l₁).length := by
        simp [List.length_cons]
        omega
      rw [harith]
      simp [List.cons_append]

theorem analyzeGo_accumulated_nc (all rest : List Chunk) (i : Nat)
    (st : AnalyzerState) (j : Nat) (s : ContextStats)
    (hnc : ∀ k c, k ≤ j → rest[k]? = some c →
      c.chunk_type ≠ ChunkType.compact)
    (hs : (analyzeGo all rest i st).1[j]? = some s) :
    s.accumulated_injections = st.accumulated ++
      (((analyzeGo all rest i st).1.take (j + 1)).map
        (·.new_injections)).flatten := by
  induction rest generalizing i st j with
  | nil =>
      rw [show (analyzeGo all [] i st).1 = [] from rfl] at hs
      simp at hs
  | cons c0 rest ih =>
      rw [analyzeGo_cons] at hs ⊢
      have hnc0 : c0.chunk_type ≠ ChunkType.compact :=
        hnc 0 c0 (Nat.zero_le j) List.getElem?_cons_zero
      obtain ⟨ha, -, -, -, -, -, hacc, -⟩ :=
        analyzeStep_noncompact_spec all c0 i st hnc0
      cases j with
      | zero =>
          rw [List.getElem?_cons_zero] at hs
          obtain rfl := Option.some_injective _ hs
          rw [ha, List.take_succ_cons]
          simp
      | succ j =>
          rw [List.getElem?_cons_succ] at hs
          have hih := ih (i + 1) _ j
            (fun k c hk hkc => hnc (k + 1) c (by omega)
              (by rw [List.getElem?_cons_succ]; exact hkc)) hs
          rw [hih, hacc, ha, List.take_succ_cons]
          simp [List.append_assoc]

theorem analyzeGo_state_after_compact (all l : List Chunk) (i : Nat)
    (st : AnalyzerState) (c : Chunk)
    (hcomp : c.chunk_type = ChunkType.compact) :
    (analyzeGo all (l ++ [c]) i st).2.2.accumulated = [] := by
  rw [analyzeGo_append, analyzeGo_cons]
  obtain ⟨-, -, -, -, -, h6⟩ := analyzeStep_compact_spec all c (i + l.length)
    (analyzeGo all l i st).2.2 hcomp
  show (analyzeStep all c (i + l.length) (analyzeGo all l i st).2.2).2.2.accumulated = []
  rw [h6]

/-- **C4.** Processing a Compact chunk stores
`tokens_freed = max(0, Σ accumulated − estimated summary tokens)` on that
chunk (hence `tokens_freed ≥ 0`); every snapshot's phase number equals one
plus the number of Compact chunks before it (so each Compact boundary
raises the phase by exactly one); and after a Compact the accumulated
list restarts empty, holding exactly the injections of the chunks after
the Compact (up to the next Compact). -/
theorem compact_semantics (chunks : List Chunk) :
    (∀ (i : Nat) (c : Chunk) (s : ContextStats),
      chunks[i]? = some c → c.chunk_type = ChunkType.compact →
      (analyze_context chunks).1[i]? = some s →
      ∃ c' : Chunk, (analyze_context chunks).2[i]? = some c' ∧
        c'.tokens_freed =
          max 0 ((injTokensSum s.accumulated_injections : Int) -
            (estimateCompactSummaryTokens c : Int)) ∧
        0 ≤ c'.tokens_freed) ∧
    (∀ (j : Nat) (s : ContextStats), (analyze_context chunks).1[j]? = some s →
      s.phase_number = 1 + compactCount (chunks.take j)) ∧
    (∀ (i j : Nat) (c : Chunk) (s : ContextStats),
      chunks[i]? = some c → c.chunk_type = ChunkType.compact →
      i < j →
      (∀ k c', i < k → k ≤ j → chunks[k]? = some c' →
        c'.chunk_type ≠ ChunkType.compact) →
      (analyze_context chunks).1[j]? = some s →
      s.accumulated_injections =
        ((((analyze_context chunks).1.drop (i + 1)).take (j - i)).map
          (·.new_injections)).flatten) := by
  have hfst : (analyze_context chunks).1 = (analyzeGo chunks chunks 0 {}).1 := rfl
  have hsnd : (analyze_context chunks).2 =
    (analyzeGo chunks chunks 0 {}).2.1 := rfl
  refine ⟨?_, ?_, ?_⟩
  · intro i c s hc hcomp hs
    rw [hfst] at hs
    rw [hsnd]
    exact ⟨_, analyzeGo_compact_out chunks chunks 0 {} i c s hc hcomp hs, rfl,
      le_max_left 0 _⟩
  · intro j s hs
    rw [hfst] at hs
    rw [analyzeGo_phase chunks chunks 0 {} j s hs]
  · intro i j c s hc hcomp hij hnc hs
    rw [hfst] at hs ⊢
    have hilen : i < chunks.length := by
      rcases List.getElem?_eq_some.mp hc with ⟨h, -⟩
      exact h
    have hl1 : chunks.take (i + 1) = chunks.take i ++ [c] := by
      rw [List.take_succ, hc]
      rfl
    have hsplit : chunks.take (i + 1) ++ chunks.drop (i + 1) = chunks :=
      List.take_append_drop _ _
    have hlen1 : (chunks.take (i + 1)).length = i + 1 := by
      rw [List.length_take]
      omega
    have hdecomp := analyzeGo_append chunks (chunks.take (i + 1))
      (chunks.drop (i + 1)) 0 {}
    rw [hsplit] at hdecomp
    have hstate :
        (analyzeGo chunks (chunks.take (i + 1)) 0 {}).2.2.accumulated = [] := by
      rw [hl1]
      exact analyzeGo_state_after_compact chunks (chunks.take i) 0 {} c hcomp
    have hlens : (analyzeGo chunks (chunks.take (i + 1)) 0 {}).1.length =
        i + 1 := by
      rw [analyzeGo_stats_length, hlen1]
    rw [hdecomp] at hs
    have hs' : ((analyzeGo chunks (chunks.take (i + 1)) 0 {}).1 ++
        (analyzeGo chunks (chunks.drop (i + 1))
          (0 + (chunks.take (i + 1)).length)
          (analyzeGo chunks (chunks.take (i + 1)) 0 {}).2.2).1)[j]? =
        some s := hs
    rw [List.getElem?_append_right (by rw [hlens]; omega), hlens] at hs'
    have hnc' : ∀ k c', k ≤ j - (i + 1) →
        (chunks.drop (i + 1))[k]? = some c' →
        c'.chunk_type ≠ ChunkType.compact := by
      intro k c' hk hkc
      rw [List.getElem?_drop] at hkc
      exact hnc (i + 1 + k) c' (by omega) (by omega) hkc
    have hacc := analyzeGo_accumulated_nc chunks (chunks.drop (i + 1))
      (0 + (chunks.take (i + 1)).length)
      (analyzeGo chunks (chunks.take (i + 1)) 0 {}).2.2
      (j - (i + 1)) s hnc' hs'
    rw [hstate, List.nil_append] at hacc
    rw [hdecomp]
    have hgoal := List.drop_left
      ((analyzeGo chunks (chunks.take (i + 1)) 0 {}).1)
      ((analyzeGo chunks (chunks.drop (i + 1))
          (0 + (chunks.take (i + 1)).length)
          (analyzeGo chunks (chunks.take (i + 1)) 0 {}).2.2).1)
    rw [hlens] at hgoal
    show s.accumulated_injections = _
    rw [hgoal, show j - i = j - (i + 1) + 1 by omega]
    exact hacc

/-- Witness for `compact_semantics` on the concrete list
`[User, Compact, User]` (compact at index 1). -/
theorem compact_semantics_witness :
    (((analyze_context exChunks3).1[2]?.getD
        ({ phase_number := 1 } : ContextStats)).phase_number =
      1 + compactCount (exChunks3.take 2)) ∧
    (∃ c' : Chunk, (analyze_context exChunks3).2[1]? = some c' ∧
      c'.tokens_freed =
        max 0 ((injTokensSum (((analyze_context exChunks3).1[1]?.getD
            ({ phase_number := 1 } : ContextStats)).accumulated_injections) : Int) -
          (estimateCompactSummaryTokens exCompactChunk : Int)) ∧
      0 ≤ c'.tokens_freed) ∧
    (((analyze_context exChunks3).1[2]?.getD
        ({ phase_number := 1 } : ContextStats)).accumulated_injections =
      ((((analyze_context exChunks3).1.drop 2).take 1).map
        (·.new_injections)).flatten) := by
  obtain ⟨h1, h2, h3⟩ := compact_semantics exChunks3
  refine ⟨h2 2 _ (by decide), h1 1 exCompactChunk _ (by decide) (by decide)
    (by decide), ?_⟩
  have := h3 1 2 exCompactChunk
    ((analyze_context exChunks3).1[2]?.getD ({ phase_number := 1 } : ContextStats))
    (by decide) (by decide) (by omega) ?_ (by decide)
  · exact this
  · intro k c' hk1 hk2 hkc
    have hk : k = 2 := by omega
    subst hk
    have h2' : exChunks3[2]? = some exUserChunk2 := by decide
    rw [h2'] at hkc
    obtain rfl := Option.some_injective _ hkc
    decide

/-! ## C1 — turn-builder prefix determinism -/

theorem flushAI_chunks (st : BuilderState) :
    ∃ t, (flushAI st).chunks = st.chunks ++ t := by
  unfold flushAI
  split
  · exact ⟨[], by simp⟩
  · exact ⟨[mkAIChunk st.counter st.aiBuffer], rfl⟩

theorem processMsg_chunks (st : BuilderState) (m : ParsedMessage) :
    ∃ t, (processMsg st m).chunks = st.chunks ++ t := by
  obtain ⟨t0, h0⟩ := flushAI_chunks st
  unfold processMsg
  by_cases h1 : m.is_compact_summary
  · rw [if_pos h1]
    exact ⟨t0 ++ [mkCompactChunk (flushAI st).counter m], by simp [h0]⟩
  · rw [if_neg h1]
    by_cases h2 : isHardNoise m.type
    · rw [if_pos h2]
      exact ⟨[], by simp⟩
    · rw [if_neg h2]
      by_cases h3 : ¬m.is_meta ∧ m.type = MessageType.user
      · rw [if_pos h3]
        exact ⟨t0 ++ [mkUserChunk (flushAI st).counter m], by simp [h0]⟩
      · rw [if_neg h3]
        by_cases h4 : ¬m.is_meta ∧ m.type = MessageType.system
        · rw [if_pos h4]
          by_cases h5 : st.aiBuffer.isEmpty
          · rw [if_pos h5]
            exact ⟨[mkSystemChunk st.counter m], by simp⟩
          · rw [if_neg h5]
            exact ⟨[], by simp⟩
        · rw [if_neg h4]
          exact ⟨[], by simp⟩

theorem foldl_processMsg_chunks (S : List ParsedMessage) (st : BuilderState) :
    ∃ t, (S.foldl processMsg st).chunks = st.chunks ++ t := by
  induction S generalizing st with
  | nil => exact ⟨[], by simp⟩
  | cons m S ih =>
      obtain ⟨t1, h1⟩ := processMsg_chunks st m
      obtain ⟨t2, h2⟩ := ih (processMsg st m)
      exact ⟨t1 ++ t2, by simp [List.foldl_cons, h2, h1]⟩

theorem final_chunks (S : List ParsedMessage) (st : BuilderState) :
    ∃ t, (flushAI (S.foldl processMsg st)).chunks = st.chunks ++ t := by
  obtain ⟨t1, h1⟩ := foldl_processMsg_chunks S st
  obtain ⟨t2, h2⟩ := flushAI_chunks (S.foldl processMsg st)
  exact ⟨t1 ++ t2, by rw [h2, h1, List.append_assoc]⟩

theorem fold_flush_buffer_chunk (S : List ParsedMessage) (st : BuilderState)
    (h : st.aiBuffer ≠ []) :
    ∃ mid rest, (flushAI (S.foldl processMsg st)).chunks =
      st.chunks ++ mkAIChunk st.counter mid :: rest ∧
      st.aiBuffer <+: mid := by
  induction S generalizing st with
  | nil =>
      refine ⟨st.aiBuffer, [], ?_, List.prefix_refl _⟩
      show (flushAI st).chunks = _
      unfold flushAI
      rw [if_neg (by simpa using h)]
  | cons m S ih =>
      simp only [List.foldl_cons]
      by_cases h1 : m.is_compact_summary
      · obtain ⟨t, ht⟩ := final_chunks S (processMsg st m)
        refine ⟨st.aiBuffer, mkCompactChunk (st.counter + 1) m :: t, ?_,
          List.prefix_refl _⟩
        rw [ht]
        have hpm : (processMsg st m).chunks = st.chunks ++
            [mkAIChunk st.counter st.aiBuffer,
             mkCompactChunk (st.counter + 1) m] := by
          unfold processMsg
          rw [if_pos h1]
          unfold flushAI
          rw [if_neg (by simpa using h)]
          simp
        rw [hpm]
        simp
      · by_cases h2 : isHardNoise m.type
        · have hpm : processMsg st m = st := by
            unfold processMsg
            rw [if_neg h1, if_pos h2]
          rw [hpm]
          exact ih st h
        · by_cases h3 : ¬m.is_meta ∧ m.type = MessageType.user
          · obtain ⟨t, ht⟩ := final_chunks S (processMsg st m)
            refine ⟨st.aiBuffer, mkUserChunk (st.counter + 1) m :: t, ?_,
              List.prefix_refl _⟩
            rw [ht]
            have hpm : (processMsg st m).chunks = st.chunks ++
                [mkAIChunk st.counter st.aiBuffer,
                 mkUserChunk (st.counter + 1) m] := by
              unfold processMsg
              rw [if_neg h1, if_neg (by simpa using h2), if_pos h3]
              unfold flushAI
              rw [if_neg (by simpa using h)]
              simp
            rw [hpm]
            simp
          · by_cases h4 : ¬m.is_meta ∧ m.type = MessageType.system
            · have hpm : processMsg st m =
                  { st with aiBuffer := st.aiBuffer ++ [m] } := by
                unfold processMsg
                rw [if_neg h1, if_neg (by simpa using h2), if_neg h3,
                  if_pos h4, if_neg (by simpa using h)]
              rw [hpm]
              obtain ⟨mid, rest, hmid, hpre⟩ :=
                ih { st with aiBuffer := st.aiBuffer ++ [m] } (by simp)
              exact ⟨mid, rest, hmid,
                ((st.aiBuffer.prefix_append [m]).trans hpre)⟩
            · have hpm : processMsg st m =
                  { st with aiBuffer := st.aiBuffer ++ [m] } := by
                unfold processMsg
                rw [if_neg h1, if_neg (by simpa using h2), if_neg h3,
                  if_neg h4]
              rw [hpm]
              obtain ⟨mid, rest, hmid, hpre⟩ :=
                ih { st with aiBuffer := st.aiBuffer ++ [m] } (by simp)
              exact ⟨mid, rest, hmid,
                ((st.aiBuffer.prefix_append [m]).trans hpre)⟩

theorem mkAIChunk_id (n : Nat) (msgs : List ParsedMessage) :
    (mkAIChunk n msgs).id = nextChunkId n := rfl

theorem mkAIChunk_messages (n : Nat) (msgs : List ParsedMessage) :
    (mkAIChunk n msgs).messages = msgs := rfl

/-- **C1 counterexample.** `[exAsst1]` is a prefix of
`[exAsst1, exAsst2]`, but the single chunk built for the prefix contains
record set `{a1}` while the corresponding chunk of the full run contains
`{a1, a2}`: the prefix of the chunk list is not reproduced. -/
theorem build_chunks_prefix_cx :
    [exAsst1] <+: [exAsst1, exAsst2] ∧
      chunkListsMatch (build_chunks [exAsst1])
        ((build_chunks [exAsst1, exAsst2]).take
          (build_chunks [exAsst1]).length) = false := by
  refine ⟨⟨[exAsst2], rfl⟩, ?_⟩
  decide

/-- **C1 (amended).** For every record sequence `R ++ S`, the chunks built
for the prefix `R` agree with those built for the whole sequence on every
chunk except possibly the last one: all earlier chunks are literally
reproduced, and the last chunk of the prefix run has the same id as the
chunk at its position in the full run, with its record list a prefix
(hence its record-id set a subset) of that chunk's. -/
theorem build_chunks_prefix_stable (R S : List ParsedMessage) :
    (build_chunks R).length ≤ (build_chunks (R ++ S)).length ∧
    (build_chunks R).dropLast <+: build_chunks (R ++ S) ∧
    (∀ cl cr, (build_chunks R).getLast? = some cl →
      (build_chunks (R ++ S))[(build_chunks R).length - 1]? = some cr →
      cl.id = cr.id ∧ cl.messages <+: cr.messages) := by
  have hfold : (R ++ S).foldl processMsg {} =
      S.foldl processMsg (R.foldl processMsg {}) :=
    List.foldl_append _ _ _ _
  have hbuildR : build_chunks R = (flushAI (R.foldl processMsg {})).chunks := rfl
  have hbuildRS : build_chunks (R ++ S) =
      (flushAI (S.foldl processMsg (R.foldl processMsg {}))).chunks := by
    show (flushAI ((R ++ S).foldl processMsg {})).chunks = _
    rw [hfold]
  by_cases hb : (R.foldl processMsg {}).aiBuffer = []
  · -- the prefix run flushed nothing extra: it is literally a prefix
    have hflush : flushAI (R.foldl processMsg {}) = R.foldl processMsg {} := by
      unfold flushAI
      rw [if_pos (by simpa using hb)]
    obtain ⟨t, ht⟩ := final_chunks S (R.foldl processMsg {})
    have hpre : build_chunks R <+: build_chunks (R ++ S) := by
      rw [hbuildR, hbuildRS, hflush, ht]
      exact (R.foldl processMsg {}).chunks.prefix_append t
    obtain ⟨t', ht'⟩ := hpre
    have hpre2 : build_chunks R <+: build_chunks (R ++ S) := ⟨t', ht'⟩
    refine ⟨?_, ?_, ?_⟩
    · rw [← ht']
      simp
    · have hdl := List.dropLast_prefix (build_chunks R)
      exact hdl.trans hpre2
    · intro cl cr hl hr
      have hne : build_chunks R ≠ [] := by
        intro hnil
        rw [hnil] at hl
        simp at hl
      have hlt : (build_chunks R).length - 1 < (build_chunks R).length := by
        have := List.length_pos.mpr hne
        omega
      rw [← ht', List.getElem?_append, if_pos hlt,
        ← List.getLast?_eq_getElem?, hl] at hr
      obtain rfl := Option.some_injective _ hr
      exact ⟨rfl, List.prefix_refl _⟩
  · -- the prefix run flushed a partial AI chunk that may grow later
    obtain ⟨mid, rest, hmid, hpre⟩ :=
      fold_flush_buffer_chunk S (R.foldl processMsg {}) hb
    have hflushR : build_chunks R = (R.foldl processMsg {}).chunks ++
        [mkAIChunk (R.foldl processMsg {}).counter
          (R.foldl processMsg {}).aiBuffer] := by
      rw [hbuildR]
      unfold flushAI
      rw [if_neg (by simpa using hb)]
    have hC : build_chunks (R ++ S) = (R.foldl processMsg {}).chunks ++
        mkAIChunk (R.foldl processMsg {}).counter mid :: rest := by
      rw [hbuildRS, hmid]
    refine ⟨?_, ?_, ?_⟩
    · rw [hflushR, hC]
      simp
    · rw [hflushR, hC, List.dropLast_concat]
      exact ⟨_, rfl⟩
    · intro cl cr hl hr
      rw [hflushR] at hl
      rw [List.getLast?_concat] at hl
      obtain rfl := Option.some_injective _ hl
      rw [hC, hflushR] at hr
      rw [List.length_append, List.length_singleton] at hr
      have hidx : (R.foldl processMsg {}).chunks.length + 1 - 1 =
          (R.foldl processMsg {}).chunks.length := by omega
      rw [hidx, List.getElem?_append_right (le_refl _), Nat.sub_self,
        List.getElem?_cons_zero] at hr
      obtain rfl := Option.some_injective _ hr
      exact ⟨rfl, by rw [mkAIChunk_messages, mkAIChunk_messages]; exact hpre⟩

/-- Witness for `build_chunks_prefix_stable` on a concrete split. -/
theorem build_chunks_prefix_stable_witness :
    (build_chunks [exAsst1]).length ≤
      (build_chunks [exAsst1, exAsst2]).length ∧
    ((build_chunks [exAsst1]).getLast?.getD exUserChunk).id =
      ((build_chunks [exAsst1, exAsst2])[(build_chunks [exAsst1]).length - 1]?.getD
        exUserChunk).id := by
  obtain ⟨h1, -, h3⟩ := build_chunks_prefix_stable [exAsst1] [exAsst2]
  refine ⟨h1, ?_⟩
  exact (h3 ((build_chunks [exAsst1]).getLast?.getD exUserChunk)
    ((build_chunks [exAsst1, exAsst2])[(build_chunks [exAsst1]).length - 1]?.getD
      exUserChunk) (by decide) (by decide)).1

/-! ## C5 — subagent uniqueness -/

theorem contains_eq_false_iff (l : List String) (a : String) :
    l.contains a = false ↔ a ∉ l := by
  induction l with
  | nil => simp
  | cons x l ih =>
      simp only [List.contains_cons, Bool.or_eq_false_iff,
        beq_eq_false_iff_ne, ih, List.mem_cons]
      tauto

theorem procIdCount_zero (chunks : List Chunk) (a : String)
    (h : ∀ c ∈ chunks, c.processes = []) : procIdCount chunks a = 0 := by
  induction chunks with
  | nil => rfl
  | cons c rest ih =>
      have hc := h c (List.mem_cons_self c rest)
      simp only [procIdCount, hc, List.map_nil, List.count_nil]
      have := ih (fun c' hc' => h c' (List.mem_cons_of_mem c hc'))
      omega

theorem procIdCount_listUpdate (chunks : List Chunk) (i : Nat) (p : Process)
    (a : String) :
    procIdCount (listUpdate chunks i
      (fun c => { c with processes := c.processes ++ [p] })) a ≤
      procIdCount chunks a + (if p.id = a then 1 else 0) := by
  induction chunks generalizing i with
  | nil =>
      show procIdCount [] a ≤ _
      simp [procIdCount]
  | cons c rest ih =>
      cases i with
      | zero =>
          show procIdCount ({ c with processes := c.processes ++ [p] } :: rest) a ≤ _
          simp only [procIdCount, List.map_append, List.count_append,
            List.map_cons, List.map_nil]
          have hs : (List.count a [p.id]) = if p.id = a then 1 else 0 := by
            by_cases hb : p.id = a
            · simp [hb]
            · simp [List.count_cons, List.count_nil, hb]
          rw [hs]
          omega
      | succ i =>
          show procIdCount (c :: listUpdate rest i _) a ≤ _
          simp only [procIdCount]
          have := ih i
          omega

theorem linkProcess_inv (st : ResolverState) (i : Nat) (aid : String)
    (p : Process) (tid : String) (hpid : p.id = aid)
    (hnew : aid ∉ st.linkedAgents) (hinv : ResolverInv st) :
    ResolverInv (linkProcess st i aid p tid) := by
  intro a
  have hcount := procIdCount_listUpdate st.chunks i
    { p with parent_task_id := tid } a
  have hmemnew : (linkProcess st i aid p tid).linkedAgents =
      st.linkedAgents ++ [aid] := rfl
  have hchunks : (linkProcess st i aid p tid).chunks =
      listUpdate st.chunks i
        (fun c => { c with processes := c.processes ++
          [{ p with parent_task_id := tid }] }) := rfl
  rw [hchunks, hmemnew]
  by_cases ha : a = aid
  · have hnew' : a ∉ st.linkedAgents := by rw [ha]; exact hnew
    have h0 : procIdCount st.chunks a = 0 := by
      have hx := hinv a
      rw [if_neg hnew'] at hx
      omega
    have hcond : ({ p with parent_task_id := tid } : Process).id = a := by
      show p.id = a
      rw [hpid, ha]
    rw [if_pos hcond] at hcount
    rw [if_pos (show a ∈ st.linkedAgents ++ [aid] by simp [ha])]
    omega
  · have hold := hinv a
    have hid' : ({ p with parent_task_id := tid } : Process).id ≠ a := by
      show p.id ≠ a
      rw [hpid]
      exact fun hh => ha hh.symm
    rw [if_neg hid'] at hcount
    have hmem : (a ∈ st.linkedAgents ++ [aid]) ↔ a ∈ st.linkedAgents := by
      simp [ha]
    by_cases hin : a ∈ st.linkedAgents
    · rw [if_pos (hmem.mpr hin)]
      rw [if_pos hin] at hold
      omega
    · rw [if_neg (fun hh => hin (hmem.mp hh))]
      rw [if_neg hin] at hold
      omega

theorem foldl_preserve {α β : Type} (P : β → Prop) (f : β → α → β)
    (l : List α) (hf : ∀ st x, x ∈ l → P st → P (f st x)) :
    ∀ st, P st → P (l.foldl f st) := by
  induction l with
  | nil => intro st h; exact h
  | cons x l ih =>
      intro st h
      exact ih (fun st' y hy hp => hf st' y (List.mem_cons_of_mem x hy) hp) _
        (hf st x (List.mem_cons_self x l) h)

theorem phase1TryAgents_inv (texs : List ToolExecution) (i : Nat)
    (rt tuid : String) (sub : List (String × Process))
    (hwf : ∀ kv ∈ sub, (kv.2).id = kv.1) (st : ResolverState)
    (hinv : ResolverInv st) :
    ResolverInv (phase1TryAgents texs i rt tuid sub st) := by
  induction sub generalizing st with
  | nil => exact hinv
  | cons kv rest ih =>
      obtain ⟨aid, p⟩ := kv
      have hpid : p.id = aid := hwf (aid, p) (List.mem_cons_self _ _)
      have hwf' : ∀ kv ∈ rest, (kv.2).id = kv.1 :=
        fun kv hkv => hwf kv (List.mem_cons_of_mem _ hkv)
      show ResolverInv (phase1TryAgents texs i rt tuid ((aid, p) :: rest) st)
      unfold phase1TryAgents
      by_cases h1 : st.linkedAgents.contains aid
      · rw [if_pos h1]
        exact ih hwf' st hinv
      · rw [if_neg h1]
        by_cases h2 : matchesAgentRef rt aid
        · rw [if_pos h2]
          cases hfind : findTaskExecForToolResult texs tuid st.linkedTools with
          | some tex =>
              exact linkProcess_inv st i aid p tex.call.id hpid
                ((contains_eq_false_iff _ _).mp (by simpa using h1)) hinv
          | none => exact ih hwf' st hinv
        · rw [if_neg h2]
          exact ih hwf' st hinv

theorem phase1AMsg_inv (sub : List (String × Process))
    (texs : List ToolExecution) (i : Nat) (msg : ParsedMessage)
    (st : ResolverState) (hwf : ∀ kv ∈ sub, (kv.2).id = kv.1)
    (hinv : ResolverInv st) : ResolverInv (phase1AMsg sub texs i msg st) :=
  foldl_preserve ResolverInv _ msg.tool_results
    (fun st' tr _ hp => phase1TryAgents_inv texs i (trResultText tr)
      tr.tool_use_id sub hwf st' hp) st hinv

theorem phase1BFirstTR_inv (texs : List ToolExecution) (i : Nat)
    (rid : String) (p : Process) (trs : List ToolResult) (st : ResolverState)
    (hpid : p.id = rid) (hnew : rid ∉ st.linkedAgents)
    (hinv : ResolverInv st) :
    ResolverInv (phase1BFirstTR texs i rid p trs st) := by
  induction trs generalizing st with
  | nil => exact hinv
  | cons tr rest ih =>
      show ResolverInv (phase1BFirstTR texs i rid p (tr :: rest) st)
      unfold phase1BFirstTR
      cases hfind : findTaskExecForToolResult texs tr.tool_use_id
          st.linkedTools with
      | some tex => exact linkProcess_inv st i rid p tex.call.id hpid hnew hinv
      | none => exact ih st hnew hinv

theorem phase1BMsg_inv (sub : List (String × Process))
    (texs : List ToolExecution) (i : Nat) (msg : ParsedMessage)
    (st : ResolverState) (hwf : ∀ kv ∈ sub, (kv.2).id = kv.1)
    (hinv : ResolverInv st) : ResolverInv (phase1BMsg sub texs i msg st) := by
  unfold phase1BMsg
  by_cases h1 : msg.agent_id ≠ "" && "agent-".isPrefixOf msg.agent_id
  · rw [if_pos h1]
    cases hfind : dictFind? sub (msg.agent_id.drop 6) with
    | some p =>
        by_cases h2 : st.linkedAgents.contains (msg.agent_id.drop 6) = true
        · have hm : msg.agent_id.drop 6 ∈ st.linkedAgents := by
            by_contra hno
            rw [(contains_eq_false_iff _ _).mpr hno] at h2
            exact Bool.false_ne_true h2
          simpa [hfind, hm] using hinv
        · have h2' : st.linkedAgents.contains (msg.agent_id.drop 6) = false := by
            simpa using h2
          have hpmem : ∃ kv ∈ sub, kv.2 = p ∧ kv.1 = msg.agent_id.drop 6 := by
            unfold dictFind? at hfind
            cases hf : sub.find? (fun kv => kv.1 == msg.agent_id.drop 6) with
            | none => rw [hf] at hfind; simp at hfind
            | some kv =>
                rw [hf] at hfind
                simp at hfind
                have hm := List.mem_of_find?_eq_some hf
                have hp := List.find?_some hf
                simp at hp
                exact ⟨kv, hm, hfind, hp⟩
          obtain ⟨kv, hkvmem, hkv2, hkv1⟩ := hpmem
          have hpid : p.id = msg.agent_id.drop 6 := by
            rw [← hkv2, hwf kv hkvmem, hkv1]
          have hm : msg.agent_id.drop 6 ∉ st.linkedAgents :=
            (contains_eq_false_iff _ _).mp h2'
          simpa [hfind, hm] using
            phase1BFirstTR_inv texs i _ p msg.tool_results st hpid hm hinv
    | none => simpa [hfind] using hinv
  · rw [if_neg h1]
    exact hinv

theorem phase1Chunk_inv (sub : List (String × Process)) (st : ResolverState)
    (i : Nat) (hwf : ∀ kv ∈ sub, (kv.2).id = kv.1) (hinv : ResolverInv st) :
    ResolverInv (phase1Chunk sub st i) := by
  unfold phase1Chunk
  cases hc : st.chunks[i]? with
  | none => exact hinv
  | some c =>
      have h1 := foldl_preserve ResolverInv
        (fun st msg => phase1AMsg sub c.tool_executions i msg st) c.messages
        (fun st' msg _ hp => phase1AMsg_inv sub c.tool_executions i msg st'
          hwf hp) st hinv
      exact foldl_preserve ResolverInv
        (fun st msg => phase1BMsg sub c.tool_executions i msg st) c.messages
        (fun st' msg _ hp => phase1BMsg_inv sub c.tool_executions i msg st'
          hwf hp) _ h1

theorem phase2TryAgents_inv (i : Nat) (taskDesc tcId : String)
    (sub : List (String × Process)) (hwf : ∀ kv ∈ sub, (kv.2).id = kv.1)
    (st : ResolverState) (hinv : ResolverInv st) :
    ResolverInv (phase2TryAgents i taskDesc tcId sub st) := by
  induction sub generalizing st with
  | nil => exact hinv
  | cons kv rest ih =>
      obtain ⟨aid, p⟩ := kv
      have hpid : p.id = aid := hwf (aid, p) (List.mem_cons_self _ _)
      have hwf' : ∀ kv ∈ rest, (kv.2).id = kv.1 :=
        fun kv hkv => hwf kv (List.mem_cons_of_mem _ hkv)
      show ResolverInv (phase2TryAgents i taskDesc tcId ((aid, p) :: rest) st)
      unfold phase2TryAgents
      by_cases h1 : st.linkedAgents.contains aid
      · rw [if_pos h1]
        exact ih hwf' st hinv
      · rw [if_neg h1]
        by_cases h2 : p.description.trim.toLower = ""
        · rw [if_pos h2]
          exact ih hwf' st hinv
        · rw [if_neg h2]
          by_cases h3 : strContains (p.description.trim.toLower) taskDesc ||
              strContains taskDesc (p.description.trim.toLower)
          · rw [if_pos h3]
            exact linkProcess_inv st i aid p tcId hpid
              ((contains_eq_false_iff _ _).mp (by simpa using h1)) hinv
          · rw [if_neg h3]
            exact ih hwf' st hinv

theorem phase2Chunk_inv (sub : List (String × Process)) (st : ResolverState)
    (i : Nat) (hwf : ∀ kv ∈ sub, (kv.2).id = kv.1) (hinv : ResolverInv st) :
    ResolverInv (phase2Chunk sub st i) := by
  unfold phase2Chunk
  cases hc : st.chunks[i]? with
  | none => exact hinv
  | some c =>
      refine foldl_preserve ResolverInv _ c.tool_executions ?_ st hinv
      intro st' tex _ hp
      by_cases h1 : !tex.call.is_task
      · rw [if_pos h1]
        exact hp
      · rw [if_neg h1]
        by_cases h2 : st'.linkedTools.contains tex.call.id
        · rw [if_pos h2]
          exact hp
        · rw [if_neg h2]
          by_cases h3 : tex.call.task_description.trim.toLower = ""
          · rw [if_pos h3]
            exact hp
          · rw [if_neg h3]
            exact phase2TryAgents_inv i _ tex.call.id sub hwf st' hp

theorem dictFind?_id (sub : List (String × Process))
    (hwf : ∀ kv ∈ sub, kv.2.id = kv.1) (aid : String) (p : Process)
    (hfind : dictFind? sub aid = some p) : p.id = aid := by
  unfold dictFind? at hfind
  cases hf : sub.find? (fun kv => kv.1 == aid) with
  | none => rw [hf] at hfind; simp at hfind
  | some kv =>
      rw [hf] at hfind
      simp at hfind
      have hm := List.mem_of_find?_eq_some hf
      have hp := List.find?_some hf
      simp at hp
      rw [← hfind, hwf kv hm, hp]

theorem filterMap_dictFind?_ids (sub : List (String × Process))
    (hwf : ∀ kv ∈ sub, kv.2.id = kv.1) (ids : List String) :
    ((ids.filterMap (dictFind? sub)).map (·.id)).Sublist ids := by
  induction ids with
  | nil => simp
  | cons aid ids ih =>
      cases hfind : dictFind? sub aid with
      | none =>
          rw [List.filterMap_cons_none hfind]
          exact ih.cons _
      | some p =>
          rw [List.filterMap_cons_some hfind, List.map_cons,
            dictFind?_id sub hwf aid p hfind]
          exact ih.cons₂ _

theorem phase3zip_inv (agents : List Process)
    (texs : List (Nat × String × Int)) :
    ∀ st : ResolverState, ((agents.map (·.id)).Nodup) →
      (∀ p ∈ agents, p.id ∉ st.linkedAgents) → ResolverInv st →
      ResolverInv ((agents.zip texs).foldl
        (fun st pr => linkProcess st pr.2.1 pr.1.id pr.1 pr.2.2.1) st) := by
  induction agents generalizing texs with
  | nil =>
      intro st _ _ h
      simpa using h
  | cons p agents ih =>
      intro st hnd hdisj hinv
      cases texs with
      | nil => simpa using hinv
      | cons tx texs =>
          rw [List.zip_cons_cons, List.foldl_cons]
          have hnew : p.id ∉ st.linkedAgents := hdisj p (List.mem_cons_self _ _)
          have hst' := linkProcess_inv st tx.1 p.id p tx.2.1 rfl hnew hinv
          rw [List.map_cons] at hnd
          refine ih texs _ (List.Nodup.of_cons hnd) ?_ hst'
          intro q hq
          have hlinked : (linkProcess st tx.1 p.id p tx.2.1).linkedAgents =
              st.linkedAgents ++ [p.id] := rfl
          rw [hlinked, List.mem_append, List.mem_singleton]
          rintro (hin | heq)
          · exact hdisj q (List.mem_cons_of_mem _ hq) hin
          · have hpnotin : p.id ∉ agents.map (·.id) :=
              (List.nodup_cons.mp hnd).1
            exact hpnotin (heq ▸ List.mem_map_of_mem (·.id) hq)

theorem phase3_inv (sub : List (String × Process)) (aiIdx : List Nat)
    (st : ResolverState) (hwf : ∀ kv ∈ sub, kv.2.id = kv.1)
    (hnd : (sub.map (·.1)).Nodup) (hinv : ResolverInv st) :
    ResolverInv (phase3 sub aiIdx st) := by
  unfold phase3
  have hsortnd : ((sub.map (·.1)).insertionSort
      (fun a b => agentStartKey sub a ≤ agentStartKey sub b)).Nodup :=
    ((List.perm_insertionSort _ _).symm).nodup hnd
  have hfilternd :=
    hsortnd.filter (fun aid => !st.linkedAgents.contains aid)
  have hnd2 := (filterMap_dictFind?_ids sub hwf
    (((sub.map (·.1)).insertionSort
      (fun a b => agentStartKey sub a ≤ agentStartKey sub b)).filter
      (fun aid => !st.linkedAgents.contains aid))).nodup hfilternd
  have hdisj2 : ∀ p ∈ (((sub.map (·.1)).insertionSort
      (fun a b => agentStartKey sub a ≤ agentStartKey sub b)).filter
      (fun aid => !st.linkedAgents.contains aid)).filterMap (dictFind? sub),
      p.id ∉ st.linkedAgents := by
    intro p hp
    rw [List.mem_filterMap] at hp
    obtain ⟨aid, haid, hfind⟩ := hp
    rw [List.mem_filter] at haid
    rw [dictFind?_id sub hwf aid p hfind]
    exact (contains_eq_false_iff _ _).mp (by simpa using haid.2)
  exact phase3zip_inv _ _ st hnd2 hdisj2 hinv

theorem dictInsert_wf (m : List (String × Process)) (p : Process)
    (hm : ∀ kv ∈ m, kv.2.id = kv.1) :
    ∀ kv ∈ dictInsert m p.id p, kv.2.id = kv.1 := by
  induction m with
  | nil =>
      intro kv hkv
      simp [dictInsert] at hkv
      rw [hkv]
  | cons kv0 rest ih =>
      intro kv hkv
      by_cases h : kv0.1 = p.id
      · rw [show dictInsert (kv0 :: rest) p.id p = (p.id, p) :: rest from by
          simp [dictInsert, h]] at hkv
        rcases List.mem_cons.mp hkv with h1 | h2
        · rw [h1]
        · exact hm kv (List.mem_cons_of_mem _ h2)
      · rw [show dictInsert (kv0 :: rest) p.id p =
            kv0 :: dictInsert rest p.id p from by simp [dictInsert, h]] at hkv
        rcases List.mem_cons.mp hkv with h1 | h2
        · rw [h1]
          exact hm kv0 (List.mem_cons_self _ _)
        · exact ih (fun kv' h' => hm kv' (List.mem_cons_of_mem _ h')) kv h2

theorem dictInsert_keys_mem {α : Type} (m : List (String × α)) (k x : String)
    (v : α) (hx : x ∈ (dictInsert m k v).map (·.1)) :
    x ∈ m.map (·.1) ∨ x = k := by
  induction m with
  | nil =>
      simp [dictInsert] at hx
      exact Or.inr hx
  | cons kv rest ih =>
      by_cases h : kv.1 = k
      · rw [show dictInsert (kv :: rest) k v = (k, v) :: rest from by
          simp [dictInsert, h], List.map_cons] at hx
        rcases List.mem_cons.mp hx with h1 | h2
        · exact Or.inr h1
        · exact Or.inl (by rw [List.map_cons]; exact List.mem_cons_of_mem _ h2)
      · rw [show dictInsert (kv :: rest) k v = kv :: dictInsert rest k v from by
          simp [dictInsert, h], List.map_cons] at hx
        rcases List.mem_cons.mp hx with h1 | h2
        · exact Or.inl (by rw [List.map_cons]; exact h1 ▸ List.mem_cons_self _ _)
        · rcases ih h2 with h3 | h4
          · exact Or.inl (by rw [List.map_cons]; exact List.mem_cons_of_mem _ h3)
          · exact Or.inr h4

theorem dictInsert_keys_nodup {α : Type} (m : List (String × α)) (k : String)
    (v : α) (h : (m.map (·.1)).Nodup) :
    ((dictInsert m k v).map (·.1)).Nodup := by
  induction m with
  | nil => simp [dictInsert]
  | cons kv rest ih =>
      rw [List.map_cons] at h
      obtain ⟨hnotin, hrest⟩ := List.nodup_cons.mp h
      by_cases hk : kv.1 = k
      · rw [show dictInsert (kv :: rest) k v = (k, v) :: rest from by
          simp [dictInsert, hk], List.map_cons]
        exact List.nodup_cons.mpr ⟨hk ▸ hnotin, hrest⟩
      · rw [show dictInsert (kv :: rest) k v = kv :: dictInsert rest k v from by
          simp [dictInsert, hk], List.map_cons]
        refine List.nodup_cons.mpr ⟨?_, ih hrest⟩
        intro hmem
        rcases dictInsert_keys_mem rest k kv.1 v hmem with h1 | h2
        · exact hnotin h1
        · exact hk h2

theorem subMap_wf (procs : List Process) :
    ∀ kv ∈ procs.foldl (fun m p => dictInsert m p.id p) [], kv.2.id = kv.1 := by
  have hgen : ∀ (m : List (String × Process)), (∀ kv ∈ m, kv.2.id = kv.1) →
      ∀ kv ∈ procs.foldl (fun m p => dictInsert m p.id p) m,
        kv.2.id = kv.1 := by
    induction procs with
    | nil => intro m hm; exact hm
    | cons p procs ih =>
        intro m hm
        exact ih _ (dictInsert_wf m p hm)
  exact hgen [] (by simp)

theorem subMap_keys_nodup (procs : List Process) :
    ((procs.foldl (fun m p => dictInsert m p.id p) []).map (·.1)).Nodup := by
  have hgen : ∀ (m : List (String × Process)), (m.map (·.1)).Nodup →
      ((procs.foldl (fun m p => dictInsert m p.id p) m).map (·.1)).Nodup := by
    induction procs with
    | nil => intro m hm; exact hm
    | cons p procs ih =>
        intro m hm
        exact ih _ (dictInsert_keys_nodup m p.id p hm)
  exact hgen [] (by simp)

theorem parallelMark_ids (procs : List Process) :
    (parallelMark procs).map (·.id) = procs.map (·.id) := by
  unfold parallelMark
  split
  · rfl
  · rw [List.map_map]
    have hcong : ∀ kp ∈ procs.enum,
        ((fun (p : Process) => p.id) ∘ (fun kp : Nat × Process =>
          if procs.enum.any (fun mq =>
              mq.1 ≠ kp.1 &&
                (mq.2.start_time - kp.2.start_time).natAbs ≤ 100) = true then
            { kp.2 with is_parallel := true }
          else kp.2)) kp = kp.2.id := by
      intro kp _
      simp only [Function.comp]
      split <;> rfl
    rw [List.map_congr_left hcong]
    rw [show (fun kp : Nat × Process => kp.2.id) =
      ((fun (p : Process) => p.id) ∘ Prod.snd) from rfl]
    rw [← List.map_map, List.enum_map_snd]

theorem procIdCount_detectParallel (chunks : List Chunk) (a : String) :
    procIdCount (detectParallelExecution chunks) a = procIdCount chunks a := by
  induction chunks with
  | nil => rfl
  | cons c rest ih =>
      show procIdCount ({ c with processes := parallelMark c.processes } ::
        detectParallelExecution rest) a = _
      simp only [procIdCount, parallelMark_ids, ih]

/-- **C5.** After `resolve_subagents`, every discovered sub-agent id
occurs among the `processes` lists of all chunks at most once (so each
process is owned by at most one AI chunk, at most once), provided the
input chunks carry no pre-linked processes. -/
theorem resolve_subagents_unique (chunks : List Chunk) (procs : List Process)
    (h : ∀ c ∈ chunks, c.processes = []) (a : String) :
    procIdCount (resolve_subagents chunks procs) a ≤ 1 := by
  have hinv0 : ResolverInv
      { chunks := chunks, linkedAgents := [], linkedTools := [] } := by
    intro a'
    rw [procIdCount_zero chunks a' h]
    simp
  unfold resolve_subagents
  by_cases hp : procs.isEmpty
  · rw [if_pos hp]
    have hx := hinv0 a
    simp at hx
    omega
  · rw [if_neg hp]
    have hwf := subMap_wf procs
    have hnd := subMap_keys_nodup procs
    have hinv1 := foldl_preserve ResolverInv
      (fun st i => phase1Chunk
        (procs.foldl (fun m p => dictInsert m p.id p) []) st i)
      (aiIndices chunks)
      (fun st' i _ hpr => phase1Chunk_inv _ st' i hwf hpr)
      { chunks := chunks, linkedAgents := [], linkedTools := [] } hinv0
    have hinv2 := foldl_preserve ResolverInv
      (fun st i => phase2Chunk
        (procs.foldl (fun m p => dictInsert m p.id p) []) st i)
      (aiIndices chunks)
      (fun st' i _ hpr => phase2Chunk_inv _ st' i hwf hpr)
      _ hinv1
    have hinv3 := phase3_inv (procs.foldl (fun m p => dictInsert m p.id p) [])
      (aiIndices chunks) _ hwf hnd hinv2
    show procIdCount (detectParallelExecution
      (phase3 (procs.foldl (fun m p => dictInsert m p.id p) [])
        (aiIndices chunks)
        ((aiIndices chunks).foldl
          (fun st i => phase2Chunk
            (procs.foldl (fun m p => dictInsert m p.id p) []) st i)
          ((aiIndices chunks).foldl
            (fun st i => phase1Chunk
              (procs.foldl (fun m p => dictInsert m p.id p) []) st i)
            { chunks := chunks, linkedAgents := [], linkedTools := [] }))).chunks)
      a ≤ 1
    rw [procIdCount_detectParallel]
    have hx := hinv3 a
    by_cases hmem : a ∈ (phase3 (procs.foldl (fun m p => dictInsert m p.id p) [])
        (aiIndices chunks)
        ((aiIndices chunks).foldl
          (fun st i => phase2Chunk
            (procs.foldl (fun m p => dictInsert m p.id p) []) st i)
          ((aiIndices chunks).foldl
            (fun st i => phase1Chunk
              (procs.foldl (fun m p => dictInsert m p.id p) []) st i)
            { chunks := chunks, linkedAgents := [], linkedTools := [] }))).linkedAgents
    · rw [if_pos hmem] at hx
      omega
    · rw [if_neg hmem] at hx
      omega

/-- Witness for `resolve_subagents_unique` at a concrete session. -/
theorem resolve_subagents_unique_witness :
    procIdCount (resolve_subagents [exUserChunk, exAIChunkTask] [exProcAbc])
      "abc" ≤ 1 :=
  resolve_subagents_unique [exUserChunk, exAIChunkTask] [exProcAbc]
    (by decide) "abc"
